import Mathlib

/-!
# Verification of the uni-list university directory

A shallow embedding of the core of the `uni-list` Django application:
the JSON import pipeline (`import_filters`, `import_universities`,
`import_directions`, `_import_helpers`), the model-level slug logic
(`web/models.py`), and the read-path filter/query builder
(`web/views.py`).

Modelling conventions:
* Strings are modelled over their ASCII fragment: Python `str` helpers
  (`lower`, `strip`, `isdigit`, `int(...)`, `slugify`) are re-implemented
  character-by-character on `String.data`, without the NFKD/unicode
  special cases, which the repository's data does not exercise.
* The relational store is a record of lists of rows; Django querysets are
  list transformations; SQL evaluation errors (`ValueError` on a
  non-numeric id filter, `EmptyPage`, unique-constraint violations) are
  `Except Unit` errors.
* Remote media downloading (`_url_encode` + `_download_file`), which the
  spec treats as an opaque external fetch-and-store collaborator, is a
  parameter `fetch : String → Option String` (`none` = download failure,
  applied to the raw path).
* `Gallery` and `TuitionFee` model classes are referenced by the import
  commands and `admin.py` but absent from `src/web/models.py`; their row
  shapes are modelled from the spec (§3) and flagged at their definitions.
-/

namespace UniList

/-! ## Python string primitives (ASCII fragment) -/

/-- ASCII whitespace, as recognised by Python `str.strip()`/`\s`. -/
def isSpace (c : Char) : Bool :=
  c = ' ' || c = '\t' || c = '\n' || c = '\x0d' || c = '\x0b' || c = '\x0c'

/-- ASCII lowercase of one character (Python `str.lower()` on ASCII). -/
def lowerChar (c : Char) : Char :=
  if 65 ≤ c.toNat ∧ c.toNat ≤ 90 then Char.ofNat (c.toNat + 32) else c

/-- Python `str.lower()` (ASCII). -/
def pyLower (s : String) : String := ⟨s.data.map lowerChar⟩

/-- Drop characters satisfying `p` from both ends of a character list. -/
def stripEnds (p : Char → Bool) (l : List Char) : List Char :=
  ((l.dropWhile p).reverse.dropWhile p).reverse

/-- Python `str.strip()` (ASCII whitespace). -/
def pyStrip (s : String) : String := ⟨stripEnds isSpace s.data⟩

/-- Python `str.isdigit()` (ASCII fragment: nonempty, all `0`-`9`). -/
def pyIsDigit (s : String) : Bool := !s.data.isEmpty && s.data.all Char.isDigit

/-- Decimal value of a digit list (most significant first). -/
def digitsVal (l : List Char) : Nat :=
  l.foldl (fun a c => a * 10 + (c.toNat - 48)) 0

/-- Digit run accepted by `int(...)` after sign stripping. -/
def pyIntCore (l : List Char) : Option Nat :=
  if !l.isEmpty && l.all Char.isDigit then some (digitsVal l) else none

/-- Python `int(str)`: optional surrounding whitespace, optional single
sign, then decimal digits; anything else raises `ValueError` (`none`). -/
def pyInt (s : String) : Option Int :=
  match stripEnds isSpace s.data with
  | [] => none
  | c :: rest =>
    if c = '-' then (pyIntCore rest).map (fun n => -(n : Int))
    else if c = '+' then (pyIntCore rest).map (fun n => (n : Int))
    else (pyIntCore (c :: rest)).map (fun n => (n : Int))

/-- `pre` is a prefix of the second list. -/
def prefixOf : List Char → List Char → Bool
  | [], _ => true
  | _ :: _, [] => false
  | a :: as, b :: bs => a = b && prefixOf as bs

/-- Python `str.startswith` for a single candidate. -/
def strStarts (s pre : String) : Bool := prefixOf pre.data s.data

/-- Python `str.endswith` for a single candidate. -/
def strEnds (s suf : String) : Bool := prefixOf suf.data.reverse s.data.reverse

/-- `needle` occurs as a contiguous sublist of `hay`. -/
def subList (needle : List Char) : List Char → Bool
  | [] => needle.isEmpty
  | c :: rest => prefixOf needle (c :: rest) || subList needle rest

/-- Django `icontains` lookup: case-insensitive substring match. -/
def icontains (hay needle : String) : Bool :=
  subList (pyLower needle).data (pyLower hay).data

/-- `os.path.basename`: the part after the last `/`. -/
def basename (s : String) : String :=
  ⟨(s.data.reverse.takeWhile (fun c => c ≠ '/')).reverse⟩

/-- `IMAGE_EXT` from `_import_helpers.py`. -/
def IMAGE_EXT : List String := [".jpg", ".jpeg", ".png", ".gif", ".webp"]

/-- `raw.startswith(("http://", "https://"))`. -/
def isHttp (s : String) : Bool := strStarts s "http://" || strStarts s "https://"

/-- `raw.lower().endswith(IMAGE_EXT)`. -/
def endsWithImageExt (s : String) : Bool :=
  IMAGE_EXT.any (fun e => strEnds (pyLower s) e)

/-! ## `django.utils.text.slugify` (ASCII fragment)

`slugify(value)`: lowercase, drop characters that are not alphanumerics,
underscores, hyphens or whitespace, collapse runs of hyphens/whitespace
to a single hyphen, and strip leading/trailing hyphens and underscores. -/

/-- Characters kept by `re.sub(r"[^\w\s-]", "", ...)` (ASCII). -/
def slugKeep (c : Char) : Bool := c.isAlphanum || c = '_' || c = '-' || isSpace c

/-- Characters collapsed by `re.sub(r"[-\s]+", "-", ...)`. -/
def slugSep (c : Char) : Bool := c = '-' || isSpace c

/-- Replace each maximal run of separator characters by a single `-`;
the flag records whether the previous character was part of a run. -/
def collapseSep : Bool → List Char → List Char
  | _, [] => []
  | prevSep, c :: cs =>
    if slugSep c then
      if prevSep then collapseSep true cs else '-' :: collapseSep true cs
    else c :: collapseSep false cs

/-- `django.utils.text.slugify` (ASCII fragment, `allow_unicode=False`). -/
def slugify (s : String) : String :=
  ⟨stripEnds (fun c => c = '-' || c = '_') (collapseSep false ((pyLower s).data.filter slugKeep))⟩

/-! ## Decimal representation facts

Facts about `Nat.repr`/`Int.repr` (Python `str(int)`): every character is
a digit (after an optional leading `-`), the representation is nonempty,
and it is injective. Used for the slug-suffix loop `f"{slug}-{counter}"`
and for the boolean coercion `_bool`. -/

theorem digitChar_isDigit {n : Nat} (h : n < 10) : (Nat.digitChar n).isDigit = true := by
  interval_cases n <;> decide

theorem toDigitsCore_digits (fuel : Nat) :
    ∀ (n : Nat) (ds : List Char), ds.all Char.isDigit = true →
      (Nat.toDigitsCore 10 fuel n ds).all Char.isDigit = true := by
  induction fuel with
  | zero => intro n ds h; simpa [Nat.toDigitsCore] using h
  | succ f ih =>
    intro n ds h
    unfold Nat.toDigitsCore
    have hd : (Nat.digitChar (n % 10)).isDigit = true :=
      digitChar_isDigit (Nat.mod_lt _ (by norm_num))
    by_cases h0 : n / 10 = 0
    · simp [h0, hd, h]
    · simp only [h0, if_false]
      exact ih _ _ (by simp [hd, h])

theorem toDigitsCore_shift (fuel : Nat) :
    ∀ (n : Nat) (ds : List Char),
      Nat.toDigitsCore 10 fuel n ds = Nat.toDigitsCore 10 fuel n [] ++ ds := by
  induction fuel with
  | zero => intro n ds; simp [Nat.toDigitsCore]
  | succ f ih =>
    intro n ds
    unfold Nat.toDigitsCore
    by_cases h0 : n / 10 = 0
    · simp [h0]
    · simp only [h0, if_false]
      rw [ih (n / 10) (Nat.digitChar (n % 10) :: ds), ih (n / 10) [Nat.digitChar (n % 10)]]
      simp

theorem toDigits_ne_nil (n : Nat) : Nat.toDigits 10 n ≠ [] := by
  unfold Nat.toDigits Nat.toDigitsCore
  by_cases h0 : n / 10 = 0
  · simp [h0]
  · simp only [h0, if_false]
    rw [toDigitsCore_shift]
    simp

theorem natRepr_data_digits (n : Nat) : (Nat.repr n).data.all Char.isDigit = true := by
  show (Nat.toDigits 10 n).all Char.isDigit = true
  exact toDigitsCore_digits (n + 1) n [] rfl

theorem natRepr_data_ne_nil (n : Nat) : (Nat.repr n).data ≠ [] := toDigits_ne_nil n

theorem lowerChar_of_isDigit {c : Char} (h : c.isDigit = true) : lowerChar c = c := by
  have h57 : c.val ≤ 57 := by
    have hb : decide (c.val ≤ 57) = true := (Bool.and_eq_true _ _ |>.mp h).2
    exact of_decide_eq_true hb
  have htn : c.toNat ≤ 57 := h57
  unfold lowerChar
  rw [if_neg]
  rintro ⟨h65, -⟩
  omega

/-! ## JSON scalars and `_bool` -/

/-- JSON scalar values as delivered by `json.loads` for the flag fields of
the feeds (booleans, strings, integers, null). -/
inductive JsonVal where
  | jbool : Bool → JsonVal
  | jstr : String → JsonVal
  | jnum : Int → JsonVal
  | jnull : JsonVal
deriving DecidableEq, Repr

/-- Python `str(v)` on JSON scalars. -/
def pyStr : JsonVal → String
  | .jbool true => "True"
  | .jbool false => "False"
  | .jstr s => s
  | .jnum n => Int.repr n
  | .jnull => "None"

/-- `_bool` from `_import_helpers.py`:
`v if isinstance(v, bool) else str(v).lower() == "true"`. -/
def _bool (v : JsonVal) : Bool :=
  match v with
  | .jbool b => b
  | _ => pyLower (pyStr v) == "true"

theorem pyLower_natRepr_ne_true (m : Nat) : pyLower (Nat.repr m) ≠ "true" := by
  intro h
  have hd : (Nat.repr m).data.map lowerChar = "true".data := congrArg String.data h
  obtain ⟨c, cs, hcc⟩ := List.exists_cons_of_ne_nil (natRepr_data_ne_nil m)
  have hdg := natRepr_data_digits m
  rw [hcc] at hd hdg
  rw [show ("true" : String).data = ['t', 'r', 'u', 'e'] from rfl] at hd
  simp only [List.map_cons, List.cons.injEq] at hd
  have hcd : c.isDigit = true := by
    simp only [List.all_cons, Bool.and_eq_true] at hdg
    exact hdg.1
  rw [lowerChar_of_isDigit hcd] at hd
  rw [hd.1] at hcd
  exact absurd hcd (by decide)

theorem pyLower_intRepr_ne_true (n : Int) : pyLower (Int.repr n) ≠ "true" := by
  cases n with
  | ofNat m => exact pyLower_natRepr_ne_true m
  | negSucc m =>
    intro h
    have hd : (Int.repr (Int.negSucc m)).data.map lowerChar = "true".data :=
      congrArg String.data h
    have he : (Int.repr (Int.negSucc m)).data = '-' :: (Nat.repr (m + 1)).data := by
      show (("-" : String) ++ Nat.repr (m + 1)).data = _
      rw [String.data_append]
      rfl
    rw [he, show ("true" : String).data = ['t', 'r', 'u', 'e'] from rfl] at hd
    simp only [List.map_cons, List.cons.injEq] at hd
    exact absurd hd.1 (by decide)

/-! ## Slug derivation (`University.save` / `Direction.save`) -/

/-- Candidate slugs tried by the model `save` methods: the naive slug,
then `f"{original_slug}-{counter}"` for `counter = 1, 2, ...`. -/
def slugCandidate (base : String) : Nat → String
  | 0 => base
  | k + 1 => base ++ "-" ++ Nat.repr (k + 1)

/-- The collision-avoidance loop of the model `save` methods: starting
from the naive slug, append `-1`, `-2`, ... until the candidate is not
among the slugs of the other stored rows (`exclude(pk=self.pk)`).  The
unbounded `while` loop is modelled by searching the first
`others.length + 1` candidates, one of which is always free
(`freshSlug_not_mem`). -/
def freshSlug (others : List String) (base : String) : String :=
  match (List.range (others.length + 1)).find?
      (fun k => !(others.contains (slugCandidate base k))) with
  | some k => slugCandidate base k
  | none => base

/-- The slug part of the model `save` methods: keep a nonempty slug
unchanged, otherwise take the naive slug `base` (`slugify(full_name)`
for `University`, `slugify(f"{university.slug}-{direction_name}")` for
`Direction`) and resolve collisions against the slugs of the other
stored rows. -/
def slugOnSave (others : List String) (base slug : String) : String :=
  if slug = "" then freshSlug others base else slug

theorem slugOnSave_idem (others : List String) (b s : String) :
    slugOnSave others b (slugOnSave others b s) = slugOnSave others b s := by
  unfold slugOnSave
  by_cases h : s = ""
  · simp only [h, if_true]
    by_cases h2 : freshSlug others b = "" <;> simp [h2]
  · simp [h]

theorem slugOnSave_of_ne (others : List String) (b s : String) (h : s ≠ "") :
    slugOnSave others b s = s := by simp [slugOnSave, h]

/-! ## Remote media attachment (`_attach_remote_file`) -/

/-- `_attach_remote_file` from `_import_helpers.py`, acting on the value
of one file field (`""` = unset).  `fetch` is the opaque composite of
`_url_encode` and `_download_file` applied to the raw path (`none` =
download failure of any kind); on success Django stores the file under
the basename of the raw path. -/
def _attach_remote_file (fetch : String → Option String) (current raw : String) : String :=
  if raw = "" then current
  else if current ≠ "" then current
  else match fetch raw with
    | none => current
    | some bytes => if bytes = "" then current else basename raw

theorem attach_idem (fetch : String → Option String) (cur raw : String) :
    _attach_remote_file fetch (_attach_remote_file fetch cur raw) raw
      = _attach_remote_file fetch cur raw := by
  unfold _attach_remote_file
  by_cases h1 : raw = ""
  · simp [h1]
  · simp only [h1, if_false]
    by_cases h2 : cur = ""
    · simp only [h2, ne_eq, not_true_eq_false, if_false]
      cases hf : fetch raw with
      | none => simp [h2, hf]
      | some bytes =>
        by_cases hb : bytes = ""
        · simp [h2, hf, hb]
        · simp only [hb, if_false]
          by_cases hbn : basename raw = ""
          · simp [hbn, hf, hb]
          · simp [hbn]
    · simp [h2]

/-! ## Gallery (`_add_gallery_item`) -/

/-- Gallery row.  Modelled from the spec: the `Gallery` model class is
referenced by `admin.py` and `_import_helpers.py` but absent from
`src/web/models.py`; per spec §3 a gallery item is
`{university: required reference (owner), image: optional media reference,
link: optional URL}`. -/
structure GalleryRow where
  university : Nat
  image : String := ""
  link : String := ""
deriving DecidableEq, Repr

/-- `_add_gallery_item` from `_import_helpers.py`: add one gallery entry
(external link or remote image) for the given university, never
duplicating an existing link or image basename. -/
def _add_gallery_item (fetch : String → Option String) (uni : Nat) (raw0 : String)
    (galleries : List GalleryRow) : List GalleryRow :=
  if pyStrip raw0 = "" then galleries
  else if isHttp (pyStrip raw0) && !endsWithImageExt (pyStrip raw0) then
    if galleries.any (fun g => g.university == uni && g.link == pyStrip raw0) then galleries
    else galleries ++ [{ university := uni, link := pyStrip raw0 }]
  else
    if galleries.any (fun g => g.university == uni && strEnds g.image (basename (pyStrip raw0)))
    then galleries
    else galleries ++ [{ university := uni, image := _attach_remote_file fetch "" (pyStrip raw0) }]

/-- The gallery loop of `import_universities.Command.handle`. -/
def addGalleryItems (fetch : String → Option String) (uni : Nat) (items : List String)
    (galleries : List GalleryRow) : List GalleryRow :=
  items.foldl (fun gs item => _add_gallery_item fetch uni item gs) galleries

theorem add_gallery_item_blank (fetch : String → Option String) (uni : Nat) {raw : String}
    (h : pyStrip raw = "") (gs : List GalleryRow) :
    _add_gallery_item fetch uni raw gs = gs := by
  simp [_add_gallery_item, h]

theorem addGalleryItems_all_blank (fetch : String → Option String) (uni : Nat)
    {items : List String} (h : ∀ i ∈ items, pyStrip i = "") (gs : List GalleryRow) :
    addGalleryItems fetch uni items gs = gs := by
  induction items generalizing gs with
  | nil => rfl
  | cons i rest ih =>
    show addGalleryItems fetch uni rest (_add_gallery_item fetch uni i gs) = gs
    rw [add_gallery_item_blank fetch uni (h i (by simp)) gs]
    exact ih (fun j hj => h j (by simp [hj])) gs

theorem add_gallery_item_mono (fetch : String → Option String) (uni : Nat) (raw : String)
    (gs : List GalleryRow) {g : GalleryRow} (h : g ∈ gs) :
    g ∈ _add_gallery_item fetch uni raw gs := by
  unfold _add_gallery_item
  split
  · exact h
  · split
    · split
      · exact h
      · exact List.mem_append_left _ h
    · split
      · exact h
      · exact List.mem_append_left _ h

theorem add_gallery_item_new (fetch : String → Option String) (uni : Nat) (raw : String)
    (gs : List GalleryRow) {g : GalleryRow}
    (h : g ∈ _add_gallery_item fetch uni raw gs) :
    g ∈ gs ∨ g.university = uni := by
  unfold _add_gallery_item at h
  split at h
  · exact Or.inl h
  · split at h
    · split at h
      · exact Or.inl h
      · rcases List.mem_append.mp h with h' | h'
        · exact Or.inl h'
        · simp at h'
          subst h'
          exact Or.inr rfl
    · split at h
      · exact Or.inl h
      · rcases List.mem_append.mp h with h' | h'
        · exact Or.inl h'
        · simp at h'
          subst h'
          exact Or.inr rfl

theorem add_gallery_item_nonblank (fetch : String → Option String) (uni : Nat) {raw : String}
    (h : pyStrip raw ≠ "") (gs : List GalleryRow)
    (hg : ∀ g ∈ gs, g.university ≠ uni) :
    ∃ g ∈ _add_gallery_item fetch uni raw gs, g.university = uni := by
  unfold _add_gallery_item
  simp only [h, if_false]
  have hany1 : gs.any (fun g => g.university == uni && g.link == pyStrip raw) = false := by
    rw [List.any_eq_false]
    intro g hgm
    simp [hg g hgm]
  have hany2 : gs.any (fun g => g.university == uni && strEnds g.image (basename (pyStrip raw)))
      = false := by
    rw [List.any_eq_false]
    intro g hgm
    simp [hg g hgm]
  split
  · rw [hany1]
    simp only [Bool.false_eq_true, if_false, List.mem_append, List.mem_singleton]
    exact ⟨_, Or.inr rfl, rfl⟩
  · rw [hany2]
    simp only [Bool.false_eq_true, if_false, List.mem_append, List.mem_singleton]
    exact ⟨_, Or.inr rfl, rfl⟩

theorem addGalleryItems_mono (fetch : String → Option String) (uni : Nat)
    (items : List String) (gs : List GalleryRow) {g : GalleryRow} (h : g ∈ gs) :
    g ∈ addGalleryItems fetch uni items gs := by
  induction items generalizing gs with
  | nil => exact h
  | cons i rest ih => exact ih _ (add_gallery_item_mono fetch uni i gs h)

theorem addGalleryItems_populates (fetch : String → Option String) (uni : Nat)
    {items : List String} (gs : List GalleryRow)
    (hne : ¬ ∀ i ∈ items, pyStrip i = "")
    (hg : ∀ g ∈ gs, g.university ≠ uni) :
    ∃ g ∈ addGalleryItems fetch uni items gs, g.university = uni := by
  induction items generalizing gs with
  | nil => exact absurd (by simp) hne
  | cons i rest ih =>
    show ∃ g ∈ addGalleryItems fetch uni rest (_add_gallery_item fetch uni i gs),
      g.university = uni
    by_cases hi : pyStrip i = ""
    · rw [add_gallery_item_blank fetch uni hi]
      refine ih gs ?_ hg
      intro hall
      refine hne fun j hj => ?_
      rcases List.mem_cons.mp hj with h' | h'
      · exact h' ▸ hi
      · exact hall j h'
    · obtain ⟨g, hgm, hgu⟩ := add_gallery_item_nonblank fetch uni hi gs hg
      exact ⟨g, addGalleryItems_mono fetch uni rest _ hgm, hgu⟩

/-! ## Data model (`web/models.py`) -/

/-- A lookup-taxonomy row (`InstitutionCategory`, `Location`, `Category`,
`EducationType`, `EducationLanguage`, `Degree`): a stable external
integer primary key and a unique name. -/
structure Taxon where
  id : Nat
  name : String
deriving DecidableEq, Repr

/-- A `University` row: the fields written by `uni_defaults` in
`import_universities.py`, the two file fields (`""` = unset) and the
three many-to-many relations (stored as taxonomy id sets).  Fields that
the import pipeline never touches (`rating`, `mtdt_*`, ...) are omitted. -/
structure UniRow where
  id : Nat := 0
  full_name : String := ""
  slug : String := ""
  description : String := ""
  about_grant : String := ""
  address : String := ""
  founded_year : Option String := none
  students_count : Option Nat := none
  current_quota : Option Nat := none
  has_accomodation : Bool := false
  has_grant : Bool := false
  admission_phone : Option String := none
  web_site : Option String := none
  instagram_username : Option String := none
  telegram_username : Option String := none
  facebook_username : Option String := none
  youtube_username : Option String := none
  support_email : Option String := none
  admission_start_date : Option String := none
  admission_deadline : Option String := none
  minimal_tuition_fee : Option Nat := none
  maximal_tuition_fee : Option Nat := none
  latitude : Option String := none
  longitude : Option String := none
  is_open_for_admission : Bool := false
  institution_category : Option Nat := none
  location : Option Nat := none
  education_types : List Nat := []
  education_languages : List Nat := []
  degrees : List Nat := []
  logo : String := ""
  license_file : String := ""
deriving DecidableEq, Repr

/-- A `Direction` row: the fields written by `dir_defaults` in
`import_directions.py` plus owner and many-to-many relations. -/
structure DirRow where
  direction_id : Nat := 0
  university : Nat := 0
  category : Option Nat := none
  direction_name : String := ""
  direction_slug : String := ""
  direction_description : String := ""
  requirement : String := ""
  first_subject : Option String := none
  second_subject : Option String := none
  has_mandatory_subjects : Bool := false
  has_stipend : Bool := false
  is_open_for_admission : Bool := false
  application_start_date : Option String := none
  application_deadline : Option String := none
  status : String := "active"
  is_promoted : Int := 0
  education_types : List Nat := []
  education_languages : List Nat := []
  degrees : List Nat := []
deriving DecidableEq, Repr

/-- A `TuitionFee` row.  Modelled from the spec: the `TuitionFee` model
class is referenced by `admin.py` and `import_directions.py` but absent
from `src/web/models.py`; per spec §3 it is keyed by the
`(direction, education_type)` pair. -/
structure FeeRow where
  direction : Nat
  education_type : Nat
  academic_year : Option String := none
  local_tuition_fee : Option Nat := none
  international_tuition_fee : Option Nat := none
deriving DecidableEq, Repr

/-- The persistent store: one list per table. -/
structure St where
  instCats : List Taxon := []
  locations : List Taxon := []
  categories : List Taxon := []
  eduTypes : List Taxon := []
  eduLangs : List Taxon := []
  degrees : List Taxon := []
  unis : List UniRow := []
  dirs : List DirRow := []
  galleries : List GalleryRow := []
  fees : List FeeRow := []
deriving DecidableEq, Repr

/-- Database well-formedness for the university table: primary keys and
slugs are unique (both are `unique=True` columns). -/
def uniWf (st : St) : Prop :=
  (st.unis.map (·.id)).Nodup ∧ (st.unis.map (·.slug)).Nodup

/-! ## Cross-reference resolution helpers -/

/-- `_get_location` from `_import_helpers.py`: `None` for a falsy name,
otherwise an exact lookup of the stripped name. -/
def _get_location (locations : List Taxon) (name : String) : Option Nat :=
  if name = "" then none
  else (locations.find? (fun t => t.name == pyStrip name)).map (·.id)

/-- One relation item of the feeds.  The four ordered name keys stand for
the locale-suffixed JSON keys tried by `_resolve_many`
(`name_uz`/`name_ru`/`name_en`/`name` for universities,
`<rel>_name_uz`/`_ru`/`_en` for directions); `""` models an absent or
falsy value, as does `none`/`0` for the id key. -/
structure RelItem where
  name_uz : String := ""
  name_ru : String := ""
  name_en : String := ""
  name : String := ""
  id : Option Nat := none
deriving DecidableEq, Repr

/-- The per-item body of `_resolve_many`: try each truthy name key in
order with a by-name lookup, then fall back to a by-id lookup on the
truthy id key; `none` when nothing resolves. -/
def resolveRel (tbl : List Taxon) (names : List String) (id? : Option Nat) : Option Nat :=
  match names with
  | [] =>
    if id?.getD 0 ≠ 0 then (tbl.find? (fun t => t.id == id?.getD 0)).map (·.id) else none
  | n :: rest =>
    if n ≠ "" then
      match tbl.find? (fun t => t.name == n) with
      | some t => some t.id
      | none => resolveRel tbl rest id?
    else resolveRel tbl rest id?

/-- Name keys tried by the `_resolve_many` helper of
`import_universities.py`. -/
def uniRelKeys (itm : RelItem) : List String := [itm.name_uz, itm.name_ru, itm.name_en, itm.name]

/-- `_resolve_many`: resolve each item, keeping only the found ones. -/
def _resolve_many (tbl : List Taxon) (keysOf : RelItem → List String)
    (items : List RelItem) : List Nat :=
  items.filterMap (fun itm => resolveRel tbl (keysOf itm) itm.id)

/-- `relation.set(objs)`: the join table ends up with each object once. -/
def m2mSet (l : List Nat) : List Nat := l.dedup

/-! ## `import_universities.py` -/

/-- One university record of the feed.  `Option` fields model
possibly-absent JSON keys stored verbatim; plain `String` fields model
keys read through `u.get(...) or ""` (`""` = absent/falsy); the flag
fields carry the raw JSON scalar fed to `_bool`. -/
structure UniRecord where
  id : Option Nat := none
  full_name_uz : String := ""
  full_name_ru : String := ""
  full_name_en : String := ""
  slug : String := ""
  description_uz : String := ""
  about_grant_uz : String := ""
  address_uz : String := ""
  founded_year : Option String := none
  students_count : Option Nat := none
  current_quota : Option Nat := none
  has_accomodation : JsonVal := .jnull
  has_grant : JsonVal := .jnull
  is_open_for_admission : JsonVal := .jnull
  admission_phone : Option String := none
  web_site : Option String := none
  instagram_username : Option String := none
  telegram_username : Option String := none
  facebook_username : Option String := none
  youtube_username : Option String := none
  support_email : Option String := none
  admission_start_date : Option String := none
  admission_deadline : Option String := none
  minimal_tuition_fee : Option Nat := none
  maximal_tuition_fee : Option Nat := none
  latitude : Option String := none
  longitude : Option String := none
  institution_category_id : Option Nat := none
  location_uz : String := ""
  logo : String := ""
  accreditation_certificate : String := ""
  certification_link : String := ""
  license_file : String := ""
  gallery : List String := []
  education_type : Option (List RelItem) := none
  education_language : Option (List RelItem) := none
  degree : Option (List RelItem) := none
deriving DecidableEq, Repr

/-- `uni_name = u.get("full_name_uz") or u.get("full_name_ru") or
u.get("full_name_en")` (`""` models the final `None`). -/
def uniName (r : UniRecord) : String :=
  if r.full_name_uz ≠ "" then r.full_name_uz
  else if r.full_name_ru ≠ "" then r.full_name_ru
  else r.full_name_en

/-- `uni_slug = u.get("slug") or slugify(uni_name)`. -/
def uniSlugOf (r : UniRecord) : String :=
  if r.slug ≠ "" then r.slug else slugify (uniName r)

/-- `lic = u.get("accreditation_certificate") or u.get("certification_link")
or u.get("license_file")`. -/
def licOf (r : UniRecord) : String :=
  if r.accreditation_certificate ≠ "" then r.accreditation_certificate
  else if r.certification_link ≠ "" then r.certification_link
  else r.license_file

/-- `inst_cat` resolution: a truthy `institution_category_id` looked up
by id (`None` when not found). -/
def instCatOf (st : St) (r : UniRecord) : Option Nat :=
  if r.institution_category_id.getD 0 ≠ 0 then
    (st.instCats.find? (fun t => t.id == r.institution_category_id.getD 0)).map (·.id)
  else none

/-- The `uni_defaults` snapshot of `import_universities.Command.handle`:
`update_or_create` assigns every listed field; `logo`, `license_file` and
the many-to-many relations are not part of the defaults and keep their
current values. -/
def applyDefaults (old : UniRow) (st : St) (r : UniRecord) (rid : Nat) : UniRow :=
  { old with
    id := rid
    full_name := uniName r
    slug := uniSlugOf r
    description := r.description_uz
    about_grant := r.about_grant_uz
    address := r.address_uz
    founded_year := r.founded_year
    students_count := r.students_count
    current_quota := r.current_quota
    has_accomodation := _bool r.has_accomodation
    has_grant := _bool r.has_grant
    admission_phone := r.admission_phone
    web_site := r.web_site
    instagram_username := r.instagram_username
    telegram_username := r.telegram_username
    facebook_username := r.facebook_username
    youtube_username := r.youtube_username
    support_email := r.support_email
    admission_start_date := r.admission_start_date
    admission_deadline := r.admission_deadline
    minimal_tuition_fee := r.minimal_tuition_fee
    maximal_tuition_fee := r.maximal_tuition_fee
    latitude := r.latitude
    longitude := r.longitude
    is_open_for_admission := _bool r.is_open_for_admission
    institution_category := instCatOf st r
    location := _get_location st.locations r.location_uz }

/-- `Model.save` on the university table: Django updates the row with
the instance's primary key and, when that UPDATE matches no row, falls
back to an INSERT (`Model._save_table`).  Columns are written wholesale;
the three relation fields of a stored row stand for its join-table rows,
which a column write never touches, so every row handed to `saveRow`
carries the join state of its primary key (`phase1Row` copies it from
the store, the final save carries the result of the `.set` calls). -/
def saveRow (st : St) (row : UniRow) : St :=
  if st.unis.any (fun u => u.id == row.id) then
    { st with unis := st.unis.map (fun u => if u.id == row.id then row else u) }
  else { st with unis := st.unis ++ [row] }

/-- The education-type join rows attached to primary key `rid` (empty
when no stored row has that key). -/
def joinETs (st : St) (rid : Nat) : List Nat :=
  match st.unis.find? (fun u => u.id == rid) with
  | some u => u.education_types
  | none => []

/-- The education-language join rows attached to primary key `rid`. -/
def joinELs (st : St) (rid : Nat) : List Nat :=
  match st.unis.find? (fun u => u.id == rid) with
  | some u => u.education_languages
  | none => []

/-- The degree join rows attached to primary key `rid`. -/
def joinDGs (st : St) (rid : Nat) : List Nat :=
  match st.unis.find? (fun u => u.id == rid) with
  | some u => u.degrees
  | none => []

/-- The body of the `Command.handle` loop after the natural-key matching:
custom-save slug fix and unique checks, row write (update-else-insert by
primary key), media attachment (in memory until the final `uni.save()`),
one-time gallery population, many-to-many sync, final save.  `created`
is the flag `update_or_create` returned and only feeds the counters. -/
def runUniPhases (fetch : String → Option String) (st : St) (r : UniRecord) (rid : Nat)
    (base : UniRow) (created : Bool) : Except Unit (St × Bool) :=
  let others := (st.unis.filter (fun u => u.id ≠ rid)).map (·.slug)
  let slug1 := slugOnSave others (slugify base.full_name) base.slug
  if slug1 ∈ others then .error () else
  let row1 : UniRow := { base with
    slug := slug1
    education_types := joinETs st rid
    education_languages := joinELs st rid
    degrees := joinDGs st rid }
  let st1 := saveRow st row1
  let logoV := _attach_remote_file fetch row1.logo r.logo
  let licV := _attach_remote_file fetch row1.license_file (licOf r)
  let st2 := if st1.galleries.any (fun g => g.university == rid) then st1
             else { st1 with galleries := addGalleryItems fetch rid r.gallery st1.galleries }
  let ets := match r.education_type with
             | some items => m2mSet (_resolve_many st.eduTypes uniRelKeys items)
             | none => row1.education_types
  let els := match r.education_language with
             | some items => m2mSet (_resolve_many st.eduLangs uniRelKeys items)
             | none => row1.education_languages
  let dgs := match r.degree with
             | some items => m2mSet (_resolve_many st.degrees uniRelKeys items)
             | none => row1.degrees
  let row2 : UniRow := { row1 with education_types := ets, education_languages := els,
                                   degrees := dgs, logo := logoV, license_file := licV }
  let others2 := (st2.unis.filter (fun u => u.id ≠ rid)).map (·.slug)
  let slug2 := slugOnSave others2 (slugify row2.full_name) row2.slug
  if slug2 ∈ others2 then .error () else
  let rowF : UniRow := { row2 with slug := slug2 }
  .ok (saveRow st2 rowF, created)

/-- One university record (`Command.handle` loop body of
`import_universities.py`).  A found row is updated with the defaults —
`uni_defaults` includes `"id": u.get("id")`, so a feed id differing from
the matched row's id is written into the instance and the save runs a
zero-row UPDATE then an INSERT (or overwrites the row that holds that
key), committing the result.  `.error ()` models a run-aborting database
failure: an all-falsy name (`slugify(None)` raises `TypeError`), a
record without `id` (the defaults would write a NULL into the
defaultless primary key), several stored rows sharing the natural key
(`MultipleObjectsReturned`), a primary-key collision on create, or a
unique-constraint violation on `slug`. -/
def processUni (fetch : String → Option String) (st : St) (r : UniRecord) :
    Except Unit (St × Bool) :=
  if uniName r = "" then .error () else
  match r.id with
  | none => .error ()
  | some rid =>
    match st.unis.filter (fun u => u.full_name == uniName r) with
    | [] =>
      if st.unis.any (fun u => u.id == rid) then .error ()
      else runUniPhases fetch st r rid (applyDefaults {} st r rid) true
    | [old] => runUniPhases fetch st r rid (applyDefaults old st r rid) false
    | _ :: _ :: _ => .error ()

/-- `import_universities.Command.handle`: fold the feed over the store
inside one transaction, counting created/updated; any error aborts the
whole run. -/
def importUnis (fetch : String → Option String) :
    St → List UniRecord → Nat → Nat → Except Unit (St × Nat × Nat)
  | st, [], c, u => .ok (st, c, u)
  | st, r :: rs, c, u =>
    match processUni fetch st r with
    | .error e => .error e
    | .ok (st', created) =>
      importUnis fetch st' rs (c + (if created then 1 else 0)) (u + (if created then 0 else 1))

/-! ## `import_filters.py` -/

/-- One value of a taxonomy feed entry: `{id?: int, name: string}`. -/
structure FilterRec where
  id : Option Nat := none
  name : String := ""
deriving DecidableEq, Repr

/-- The per-record body of `_upsert_objects` from `import_filters.py`.
A truthy id (`0`/absent are falsy) is looked up first
(`filter(id=...).first()`): if the row exists its name is updated when it
differs, otherwise a row is created with exactly that id.  Without a
truthy id the record falls back to `get_or_create(name=name)`.  The
taxonomy primary key is a `PositiveIntegerField` with no default and the
name column is `unique=True`, and the command runs under
`transaction.atomic`; a database error — a NULL id inserted by the
falsy-id fallback (whose `get_or_create` stands outside the
`try/except`), or a unique-name violation on a rename or an explicit-id
create (swallowed by `except Exception`, but `Model.save` has already
marked the transaction for rollback) — loses the whole run's writes, so
every such error is `.error ()`. -/
def upsertFilterRec (rows : List Taxon) (rec : FilterRec) : Except Unit (List Taxon) :=
  let name := pyStrip rec.name
  if rec.id.getD 0 ≠ 0 then
    match rows.find? (fun t => t.id == rec.id.getD 0) with
    | some obj =>
      if obj.name ≠ name then
        if rows.any (fun t => t.id != obj.id && t.name == name) then .error ()
        else .ok (rows.map (fun t => if t.id == obj.id then { t with name := name } else t))
      else .ok rows
    | none =>
      if rows.any (fun t => t.name == name) then .error ()
      else .ok (rows ++ [⟨rec.id.getD 0, name⟩])
  else
    match rows.find? (fun t => t.name == name) with
    | some _ => .ok rows
    | none => .error ()

/-- `_upsert_objects`: process the record list left to right; a database
error rolls the run back. -/
def _upsert_objects : List Taxon → List FilterRec → Except Unit (List Taxon)
  | rows, [] => .ok rows
  | rows, rec :: rest =>
    match upsertFilterRec rows rec with
    | .error e => .error e
    | .ok rows2 => _upsert_objects rows2 rest

/-! ## `import_directions.py` -/

/-- Python `str.split()` (no argument): maximal runs of non-whitespace. -/
def splitWsAux (acc : List Char) : List Char → List String
  | [] => if acc.isEmpty then [] else [⟨acc.reverse⟩]
  | c :: cs =>
    if isSpace c then
      if acc.isEmpty then splitWsAux [] cs else (⟨acc.reverse⟩ : String) :: splitWsAux [] cs
    else splitWsAux (c :: acc) cs

/-- Python `str.split()`. -/
def pySplit (s : String) : List String := splitWsAux [] s.data

/-- Evaluate one id-valued comparison value: Django feeds the raw
query-string value to `int(...)` when the SQL is compiled, so a value
`int` rejects raises `ValueError` (`.error`). -/
def qInt (s : String) : Except Unit Int :=
  match pyInt s with
  | some n => .ok n
  | none => .error ()

/-- Evaluate every comparison value of one composed `Q` object. -/
def qInts : List String → Except Unit (List Int)
  | [] => .ok []
  | v :: rest =>
    match pyInt v with
    | some n => (qInts rest).map (fun l => n :: l)
    | none => .error ()

/-- `id` column versus an OR-ed value set. -/
def idMatch (x : Nat) (ids : List Int) : Bool := ids.any (fun i => i == (x : Int))

/-- Nullable foreign key versus an OR-ed value set (SQL NULL never
matches). -/
def optIdMatch (x : Option Nat) (ids : List Int) : Bool :=
  match x with
  | some v => idMatch v ids
  | none => false

/-- A filter over a many-to-many join: each row occurs once per linked
taxonomy row satisfying the OR-ed id conditions (SQL join multiplicity,
collapsed later by `.distinct()`). -/
def joinFilter (get : α → List Nat) (ids : List Int) (rows : List α) : List α :=
  rows.flatMap (fun u => ((get u).filter (fun t => idMatch t ids)).map (fun _ => u))

/-- Many-to-many filter with the `isdigit()` guard of
`UniversityListView` and both APIs: non-digit values contribute no
condition; when no condition remains the `Q()` is empty and the filter
is a no-op (no join). -/
def m2mFilterGuarded (get : α → List Nat) (vals : List String) (rows : List α) :
    Except Unit (List α) :=
  if vals.isEmpty then .ok rows
  else
    (qInts (vals.filter pyIsDigit)).map (fun ids =>
      if ids.isEmpty then rows else joinFilter get ids rows)

/-- Many-to-many filter without any guard (`DirectionListView`): every
supplied value is evaluated. -/
def m2mFilterRaw (get : α → List Nat) (vals : List String) (rows : List α) :
    Except Unit (List α) :=
  if vals.isEmpty then .ok rows
  else (qInts vals).map (fun ids => joinFilter get ids rows)

/-- Foreign-key filter with the `isdigit()` guard. -/
def fkFilterGuarded (get : α → Option Nat) (vals : List String) (rows : List α) :
    Except Unit (List α) :=
  if vals.isEmpty then .ok rows
  else
    (qInts (vals.filter pyIsDigit)).map (fun ids =>
      if ids.isEmpty then rows else rows.filter (fun u => optIdMatch (get u) ids))

/-- Foreign-key filter without any guard (`DirectionListView`). -/
def fkFilterRaw (get : α → Option Nat) (vals : List String) (rows : List α) :
    Except Unit (List α) :=
  if vals.isEmpty then .ok rows
  else (qInts vals).map (fun ids => rows.filter (fun u => optIdMatch (get u) ids))

/-- The institution-category filter of the university listing: a digit
value matches the foreign key exactly, any other value matches the
referenced category name case-insensitively as a substring (no `int`
conversion happens, so this filter cannot raise). -/
def instCatFilter (instCats : List Taxon) (vals : List String) (rows : List UniRow) :
    List UniRow :=
  if vals.isEmpty then rows
  else
    rows.filter (fun u => vals.any (fun v =>
      if pyIsDigit v then optIdMatch u.institution_category [(pyInt v).getD 0]
      else
        match u.institution_category with
        | some cid => (instCats.filter (fun t => t.id == cid)).any (fun t => icontains t.name v)
        | none => false))

/-- `minimal_tuition_fee__gte=int(min_price)`, applied only when the
value is truthy and all digits. -/
def priceMinFilter (v? : Option String) (rows : List UniRow) : Except Unit (List UniRow) :=
  match v? with
  | none => .ok rows
  | some v =>
    if v ≠ "" && pyIsDigit v then
      (qInt v).map (fun n => rows.filter (fun u =>
        match u.minimal_tuition_fee with
        | some f => (f : Int) ≥ n
        | none => false))
    else .ok rows

/-- `maximal_tuition_fee__lte=int(max_price)`, applied only when the
value is truthy and all digits. -/
def priceMaxFilter (v? : Option String) (rows : List UniRow) : Except Unit (List UniRow) :=
  match v? with
  | none => .ok rows
  | some v =>
    if v ≠ "" && pyIsDigit v then
      (qInt v).map (fun n => rows.filter (fun u =>
        match u.maximal_tuition_fee with
        | some f => (f : Int) ≤ n
        | none => false))
    else .ok rows

/-- `admission_status == "open"` keeps only open rows; other values are
ignored. -/
def admissionFilterU (v? : Option String) (rows : List UniRow) : List UniRow :=
  if v? = some "open" then rows.filter (fun u => u.is_open_for_admission) else rows

/-- One search term against a university (`full_name`, `description`,
`location__name`, `institution_category__name`). -/
def uniSearchHit (st : St) (u : UniRow) (term : String) : Bool :=
  icontains u.full_name term || icontains u.description term ||
  (match u.location with
   | some l => (st.locations.filter (fun t => t.id == l)).any (fun t => icontains t.name term)
   | none => false) ||
  (match u.institution_category with
   | some c => (st.instCats.filter (fun t => t.id == c)).any (fun t => icontains t.name term)
   | none => false)

/-- The university search filter: the query is split into whitespace
terms and a row matches when any term hits any of the four columns. -/
def uniSearchFilter (st : St) (q? : Option String) (rows : List UniRow) : List UniRow :=
  match q? with
  | none => rows
  | some s => if s = "" then rows else rows.filter (fun u => (pySplit s).any (uniSearchHit st u))

/-- Lexicographic `≤` on character lists by code point. -/
def lexLe : List Char → List Char → Bool
  | [], _ => true
  | _ :: _, [] => false
  | a :: as, b :: bs =>
    if a.toNat < b.toNat then true
    else if b.toNat < a.toNat then false
    else lexLe as bs

/-- String ordering used for `ORDER BY` columns. -/
def strLe (a b : String) : Bool := lexLe a.data b.data

/-- Nullable integer ordering for `ORDER BY` (`none` sorts first,
SQLite-style ascending NULLs). -/
def optNatLe (a b : Option Nat) : Bool :=
  match a, b with
  | none, _ => true
  | some _, none => false
  | some x, some y => x ≤ y

/-- Nullable string ordering for `ORDER BY` (`none` first). -/
def optStrLe (a b : Option String) : Bool :=
  match a, b with
  | none, _ => true
  | some _, none => false
  | some x, some y => strLe x y

/-- `location__name` through the foreign-key join. -/
def locNameOf (st : St) (u : UniRow) : Option String :=
  u.location.bind (fun l => (st.locations.find? (fun t => t.id == l)).map (·.name))

/-- `order_by` of the university listing: `name` (default and fallback),
`price_low`, `price_high`, `location`.  Databases promise no tie order;
the model uses a deterministic insertion sort. -/
def sortUnis (st : St) (sort? : Option String) (rows : List UniRow) : List UniRow :=
  let key := sort?.getD "name"
  if key = "name" then
    List.insertionSort (fun u v => strLe u.full_name v.full_name = true) rows
  else if key = "price_low" then
    List.insertionSort (fun u v => optNatLe u.minimal_tuition_fee v.minimal_tuition_fee = true) rows
  else if key = "price_high" then
    List.insertionSort (fun u v => optNatLe v.minimal_tuition_fee u.minimal_tuition_fee = true) rows
  else if key = "location" then
    List.insertionSort (fun u v =>
      (optStrLe (locNameOf st u) (locNameOf st v) &&
        (!(optStrLe (locNameOf st v) (locNameOf st u)) || strLe u.full_name v.full_name)) = true) rows
  else
    List.insertionSort (fun u v => strLe u.full_name v.full_name = true) rows

/-- The query parameters recognised by the university listing and its
API (list-valued parameters may repeat). -/
structure UQuery where
  institution_category : List String := []
  location : List String := []
  education_type : List String := []
  education_language : List String := []
  degree : List String := []
  min_price : Option String := none
  max_price : Option String := none
  admission_status : Option String := none
  search : Option String := none
  sort : Option String := none
deriving DecidableEq, Repr

/-- `UniversityListView.get_queryset` (the filter block of
`university_filter_api` is the same code): every recognised filter in
source order, then `order_by` and `.distinct()`. -/
def uniQueryset (st : St) (q : UQuery) : Except Unit (List UniRow) := do
  let rows := instCatFilter st.instCats q.institution_category st.unis
  let rows ← fkFilterGuarded (fun u => u.location) q.location rows
  let rows ← m2mFilterGuarded (fun u => u.education_types) q.education_type rows
  let rows ← m2mFilterGuarded (fun u => u.education_languages) q.education_language rows
  let rows ← m2mFilterGuarded (fun u => u.degrees) q.degree rows
  let rows ← priceMinFilter q.min_price rows
  let rows ← priceMaxFilter q.max_price rows
  let rows := admissionFilterU q.admission_status rows
  let rows := uniSearchFilter st q.search rows
  pure (sortUnis st q.sort rows).dedup

/-- The query parameters recognised by the direction listing and its
API. -/
structure DQuery where
  university : List String := []
  category : List String := []
  education_type : List String := []
  education_language : List String := []
  degree : List String := []
  admission_status : Option String := none
  search : Option String := none
deriving DecidableEq, Repr

/-- `admission_status` filter for directions. -/
def admissionFilterD (v? : Option String) (rows : List DirRow) : List DirRow :=
  if v? = some "open" then rows.filter (fun x => x.is_open_for_admission) else rows

/-- `DirectionListView` search: the whole query string (no term split)
against `direction_name`, `direction_description`,
`university__full_name`. -/
def dirSearchHit (st : St) (x : DirRow) (s : String) : Bool :=
  icontains x.direction_name s || icontains x.direction_description s ||
  (st.unis.filter (fun u => u.id == x.university)).any (fun u => icontains u.full_name s)

/-- `DirectionListView.get_queryset`: the university and category id
filters and all three many-to-many filters take every supplied value to
`int(...)` with no `isdigit()` guard, then `admission_status`, search
and `.distinct()` (no `order_by`). -/
def dirListQueryset (st : St) (q : DQuery) : Except Unit (List DirRow) := do
  let rows ← fkFilterRaw (fun x => some x.university) q.university st.dirs
  let rows ← fkFilterRaw (fun x => x.category) q.category rows
  let rows ← m2mFilterRaw (fun x => x.education_types) q.education_type rows
  let rows ← m2mFilterRaw (fun x => x.education_languages) q.education_language rows
  let rows ← m2mFilterRaw (fun x => x.degrees) q.degree rows
  let rows := admissionFilterD q.admission_status rows
  let rows := match q.search with
              | none => rows
              | some s => if s = "" then rows else rows.filter (fun x => dirSearchHit st x s)
  pure rows.dedup

/-- One search term of `direction_filter_api` (adds `category__name`). -/
def dirApiSearchHit (st : St) (x : DirRow) (term : String) : Bool :=
  icontains x.direction_name term || icontains x.direction_description term ||
  (st.unis.filter (fun u => u.id == x.university)).any (fun u => icontains u.full_name term) ||
  (match x.category with
   | some c => (st.categories.filter (fun t => t.id == c)).any (fun t => icontains t.name term)
   | none => false)

/-- `university__full_name` through the join, for `order_by`. -/
def dirUniNameOf (st : St) (x : DirRow) : Option String :=
  (st.unis.find? (fun u => u.id == x.university)).map (·.full_name)

/-- The filter/order block of `direction_filter_api`: all id filters are
`isdigit()`-guarded, search splits into terms, then
`order_by('university__full_name', 'direction_name')` and
`.distinct()`. -/
def dirApiQueryset (st : St) (q : DQuery) : Except Unit (List DirRow) := do
  let rows ← fkFilterGuarded (fun x => some x.university) q.university st.dirs
  let rows ← fkFilterGuarded (fun x => x.category) q.category rows
  let rows ← m2mFilterGuarded (fun x => x.education_types) q.education_type rows
  let rows ← m2mFilterGuarded (fun x => x.education_languages) q.education_language rows
  let rows ← m2mFilterGuarded (fun x => x.degrees) q.degree rows
  let rows := admissionFilterD q.admission_status rows
  let rows := match q.search with
              | none => rows
              | some s =>
                if s = "" then rows
                else rows.filter (fun x => (pySplit s).any (dirApiSearchHit st x))
  let sorted := List.insertionSort (fun x y =>
    (optStrLe (dirUniNameOf st x) (dirUniNameOf st y) &&
      (!(optStrLe (dirUniNameOf st y) (dirUniNameOf st x)) ||
        strLe x.direction_name y.direction_name)) = true) rows
  pure sorted.dedup

/-! ## Pagination and the filter APIs -/

theorem except_bind_ok {α β : Type} {e : Except Unit α} {f : α → Except Unit β} {b : β}
    (h : (e >>= f) = .ok b) : ∃ a, e = .ok a ∧ f a = .ok b := by
  cases e with
  | error e => simp [Bind.bind, Except.bind] at h
  | ok a => exact ⟨a, rfl, by simpa [Bind.bind, Except.bind] using h⟩

theorem forall_false_of_filter_nil {α : Type} {l : List α} {p : α → Bool}
    (h : l.filter p = []) : ∀ x ∈ l, p x = false := by
  intro x hx
  simpa using List.filter_eq_nil_iff.mp h x hx

theorem map_replace_of_filter_nil {α : Type} {l : List α} {p : α → Bool} {b : α}
    (h : ∀ x ∈ l, p x = false) : l.map (fun x => if p x then b else x) = l := by
  induction l with
  | nil => rfl
  | cons x xs ih =>
    simp only [List.map_cons]
    rw [if_neg (by simp [h x (by simp)])]
    rw [ih (fun y hy => h y (by simp [hy]))]

theorem filter_eq_singleton_mem {α : Type} {l : List α} {p : α → Bool} {a : α}
    (h : l.filter p = [a]) : a ∈ l ∧ p a = true := by
  have : a ∈ l.filter p := by rw [h]; simp
  exact ⟨(List.mem_filter.mp this).1, (List.mem_filter.mp this).2⟩

theorem map_replace_self {α : Type} {l : List α} {p : α → Bool} {a : α}
    (h : l.filter p = [a]) : l.map (fun x => if p x then a else x) = l := by
  induction l with
  | nil => rfl
  | cons x xs ih =>
    by_cases hx : p x = true
    · rw [List.filter_cons_of_pos hx] at h
      have hxa : x = a := (List.cons.injEq _ _ _ _).mp h |>.1
      have hnil : xs.filter p = [] := (List.cons.injEq _ _ _ _).mp h |>.2
      simp only [List.map_cons]
      rw [if_pos hx, map_replace_of_filter_nil (forall_false_of_filter_nil hnil), hxa]
    · rw [List.filter_cons_of_neg hx] at h
      simp only [List.map_cons]
      rw [if_neg hx, ih h]

theorem filter_map_replace_single {α : Type} {l : List α} {p : α → Bool} {a b : α}
    (h : l.filter p = [a]) (hb : p b = true) :
    (l.map (fun x => if p x then b else x)).filter p = [b] := by
  induction l with
  | nil => simp at h
  | cons x xs ih =>
    by_cases hx : p x = true
    · rw [List.filter_cons_of_pos hx] at h
      have hnil : xs.filter p = [] := (List.cons.injEq _ _ _ _).mp h |>.2
      simp only [List.map_cons]
      rw [if_pos hx, map_replace_of_filter_nil (forall_false_of_filter_nil hnil)]
      rw [List.filter_cons_of_pos hb, hnil]
    · rw [List.filter_cons_of_neg hx] at h
      simp only [List.map_cons]
      rw [if_neg hx, List.filter_cons_of_neg hx, ih h]

theorem filter_map_replace_other {α : Type} {l : List α} {p q : α → Bool} {b : α}
    (hpq : ∀ x, p x = true → q x = false) (hb : q b = false) :
    (l.map (fun x => if p x then b else x)).filter q = l.filter q := by
  induction l with
  | nil => rfl
  | cons x xs ih =>
    simp only [List.map_cons]
    by_cases hx : p x = true
    · rw [if_pos hx, List.filter_cons_of_neg (by simp [hb]),
        List.filter_cons_of_neg (by simp [hpq x hx]), ih]
    · rw [if_neg hx]
      by_cases hq : q x = true
      · rw [List.filter_cons_of_pos hq, List.filter_cons_of_pos hq, ih]
      · rw [List.filter_cons_of_neg hq, List.filter_cons_of_neg hq, ih]

theorem mem_map_replace {α : Type} {l : List α} {p : α → Bool} {b y : α}
    (h : y ∈ l.map (fun x => if p x then b else x)) : y ∈ l ∨ y = b := by
  obtain ⟨z, hz, hzy⟩ := List.mem_map.mp h
  by_cases hp : p z = true
  · right
    rw [if_pos hp] at hzy
    exact hzy.symm
  · left
    rw [if_neg hp] at hzy
    exact hzy ▸ hz

theorem map_map_replace_eq {α β : Type} {l : List α} {p : α → Bool} {a b : α} {f : α → β}
    (h : l.filter p = [a]) (hfb : f b = f a) :
    (l.map (fun x => if p x then b else x)).map f = l.map f := by
  induction l with
  | nil => rfl
  | cons x xs ih =>
    simp only [List.map_cons]
    by_cases hx : p x = true
    · rw [List.filter_cons_of_pos hx] at h
      have hxa : x = a := (List.cons.injEq _ _ _ _).mp h |>.1
      have hnil : xs.filter p = [] := (List.cons.injEq _ _ _ _).mp h |>.2
      rw [if_pos hx, map_replace_of_filter_nil (forall_false_of_filter_nil hnil), hfb, hxa]
    · rw [List.filter_cons_of_neg hx] at h
      rw [if_neg hx, ih h]

theorem nodup_map_replace {α β : Type} [DecidableEq β] {l : List α} {p : α → Bool} {a b : α}
    {f : α → β} (hfil : l.filter p = [a]) (hnd : ((l.map f)).Nodup)
    (hb : f b ∉ (l.filter (fun x => !(p x))).map f) :
    ((l.map (fun x => if p x then b else x)).map f).Nodup := by
  induction l with
  | nil => simp
  | cons x xs ih =>
    simp only [List.map_cons] at hnd ⊢
    have hnd' := List.nodup_cons.mp hnd
    by_cases hx : p x = true
    · rw [List.filter_cons_of_pos hx] at hfil
      have hnil : xs.filter p = [] := (List.cons.injEq _ _ _ _).mp hfil |>.2
      rw [if_pos hx, map_replace_of_filter_nil (forall_false_of_filter_nil hnil)]
      rw [List.filter_cons_of_neg (by simp [hx])] at hb
      have hxsall : xs.filter (fun x => !(p x)) = xs :=
        List.filter_eq_self.mpr (fun y hy => by
          simp [forall_false_of_filter_nil hnil y hy])
      rw [hxsall] at hb
      exact List.nodup_cons.mpr ⟨hb, hnd'.2⟩
    · rw [List.filter_cons_of_neg hx] at hfil
      rw [List.filter_cons_of_pos (by simp [hx])] at hb
      simp only [List.map_cons] at hb
      rw [if_neg hx]
      refine List.nodup_cons.mpr ⟨?_, ih hfil hnd'.2 (fun hc => hb (by simp [hc]))⟩
      intro hmem
      obtain ⟨z, hz, hzy⟩ := List.mem_map.mp hmem
      rcases mem_map_replace hz with hz' | rfl
      · exact hnd'.1 (hzy ▸ List.mem_map.mpr ⟨z, hz', rfl⟩)
      · refine hb ?_
        rw [hzy]
        exact List.mem_cons_self _ _

theorem nodup_append_singleton {α : Type} [DecidableEq α] {l : List α} {x : α}
    (hnd : l.Nodup) (hx : x ∉ l) : (l ++ [x]).Nodup := by
  rw [List.nodup_append]
  refine ⟨hnd, List.nodup_singleton x, ?_⟩
  intro a ha hax
  rw [List.mem_singleton] at hax
  exact hx (hax ▸ ha)

theorem pairwise_ne_of_nodup_map {α β : Type} {l : List α} {f : α → β}
    (hnd : (l.map f).Nodup) {a b : α} (ha : a ∈ l) (hb : b ∈ l) (hab : a ≠ b) :
    f a ≠ f b := by
  have hpw : l.Pairwise (fun x y => f x ≠ f y) := List.pairwise_map.mp hnd
  have := hpw.forall (fun {x y} h => h.symm) ha hb
  exact this hab

/-- Members of the list of other-rows slugs come from other rows. -/
theorem slug_fresh_of_wf {unis : List UniRow} (hwf : (unis.map (·.slug)).Nodup)
    {old : UniRow} (hold : old ∈ unis) :
    old.slug ∉ (unis.filter (fun u => u.id ≠ old.id)).map (·.slug) := by
  intro hmem
  obtain ⟨u', hu'mem, hslug⟩ := List.mem_map.mp hmem
  have hu' := List.mem_filter.mp hu'mem
  have hne : u' ≠ old := by
    intro h
    subst h
    simpa using hu'.2
  exact pairwise_ne_of_nodup_map hwf hu'.1 hold hne hslug

theorem not_space_of_digit {c : Char} (h : c.isDigit = true) : isSpace c = false := by
  by_contra hns
  have hs : isSpace c = true := by simpa using hns
  simp only [isSpace, Bool.or_eq_true, decide_eq_true_eq] at hs
  rcases hs with ((((rfl | rfl) | rfl) | rfl) | rfl) | rfl <;> exact absurd h (by decide)

theorem dropWhile_all_false {p : Char → Bool} :
    ∀ {l : List Char}, (∀ c ∈ l, p c = false) → l.dropWhile p = l
  | [], _ => rfl
  | c :: cs, h => by simp [List.dropWhile_cons, h c (by simp)]

theorem stripEnds_all_false {p : Char → Bool} {l : List Char}
    (h : ∀ c ∈ l, p c = false) : stripEnds p l = l := by
  unfold stripEnds
  rw [dropWhile_all_false h, dropWhile_all_false (fun c hc => h c (by simpa using hc))]
  simp

theorem pyInt_of_isDigit {s : String} (h : pyIsDigit s = true) :
    pyInt s = some ((digitsVal s.data : Nat) : Int) := by
  have hparts := (Bool.and_eq_true _ _).mp h
  have hne : s.data ≠ [] := by
    intro hc
    rw [hc] at hparts
    simpa using hparts.1
  have hall : s.data.all Char.isDigit = true := hparts.2
  have hstrip : stripEnds isSpace s.data = s.data :=
    stripEnds_all_false (fun c hc => not_space_of_digit (by
      have := List.all_eq_true.mp hall c hc
      simpa using this))
  obtain ⟨c, cs, hcc⟩ := List.exists_cons_of_ne_nil hne
  have hcd : c.isDigit = true := by
    have := List.all_eq_true.mp hall c (by rw [hcc]; simp)
    simpa using this
  have hcm : c ≠ '-' := by rintro rfl; exact absurd hcd (by decide)
  have hcp : c ≠ '+' := by rintro rfl; exact absurd hcd (by decide)
  unfold pyInt
  rw [hstrip, hcc]
  simp only [if_neg hcm, if_neg hcp]
  unfold pyIntCore
  rw [if_pos (by simp only [List.isEmpty_cons, Bool.not_false, Bool.true_and]; rw [← hcc]; exact hall)]
  simp [hcc]

theorem pyInt_ne_none_of_isDigit {s : String} (h : pyIsDigit s = true) : pyInt s ≠ none := by
  rw [pyInt_of_isDigit h]
  simp

theorem qInts_ok_of_parseable {vals : List String} (h : ∀ v ∈ vals, pyInt v ≠ none) :
    ∃ l, qInts vals = .ok l := by
  induction vals with
  | nil => exact ⟨[], rfl⟩
  | cons v rest ih =>
    obtain ⟨l, hl⟩ := ih (fun w hw => h w (by simp [hw]))
    cases hv : pyInt v with
    | none => exact absurd hv (h v (by simp))
    | some n =>
      refine ⟨n :: l, ?_⟩
      unfold qInts
      rw [hv, hl]
      rfl

theorem qInts_digits_ok (vals : List String) :
    ∃ l, qInts (vals.filter pyIsDigit) = .ok l :=
  qInts_ok_of_parseable (fun v hv => pyInt_ne_none_of_isDigit (List.mem_filter.mp hv).2)

theorem ok_bind {α β : Type} (a : α) (f : α → Except Unit β) :
    (Except.ok a >>= f) = f a := rfl

/-! ## Totality of the guarded read path -/

theorem m2mFilterGuarded_ok {α : Type} (get : α → List Nat) (vals : List String)
    (rows : List α) : ∃ l, m2mFilterGuarded get vals rows = .ok l := by
  unfold m2mFilterGuarded
  by_cases h : vals.isEmpty = true
  · exact ⟨rows, by rw [if_pos h]⟩
  · rw [if_neg h]
    obtain ⟨ids, hids⟩ := qInts_digits_ok vals
    rw [hids]
    exact ⟨_, rfl⟩

theorem fkFilterGuarded_ok {α : Type} (get : α → Option Nat) (vals : List String)
    (rows : List α) : ∃ l, fkFilterGuarded get vals rows = .ok l := by
  unfold fkFilterGuarded
  by_cases h : vals.isEmpty = true
  · exact ⟨rows, by rw [if_pos h]⟩
  · rw [if_neg h]
    obtain ⟨ids, hids⟩ := qInts_digits_ok vals
    rw [hids]
    exact ⟨_, rfl⟩

theorem qInt_of_isDigit {v : String} (hd : pyIsDigit v = true) :
    qInt v = .ok ((digitsVal v.data : Nat) : Int) := by
  unfold qInt
  rw [pyInt_of_isDigit hd]

theorem priceMinFilter_ok (v? : Option String) (rows : List UniRow) :
    ∃ l, priceMinFilter v? rows = .ok l := by
  cases v? with
  | none => exact ⟨rows, rfl⟩
  | some v =>
    simp only [priceMinFilter]
    by_cases h : (v ≠ "" && pyIsDigit v) = true
    · rw [if_pos h, qInt_of_isDigit ((Bool.and_eq_true _ _).mp h).2]
      exact ⟨_, rfl⟩
    · rw [if_neg h]
      exact ⟨rows, rfl⟩

theorem priceMaxFilter_ok (v? : Option String) (rows : List UniRow) :
    ∃ l, priceMaxFilter v? rows = .ok l := by
  cases v? with
  | none => exact ⟨rows, rfl⟩
  | some v =>
    simp only [priceMaxFilter]
    by_cases h : (v ≠ "" && pyIsDigit v) = true
    · rw [if_pos h, qInt_of_isDigit ((Bool.and_eq_true _ _).mp h).2]
      exact ⟨_, rfl⟩
    · rw [if_neg h]
      exact ⟨rows, rfl⟩

theorem uniQueryset_ok (st : St) (q : UQuery) : ∃ l, uniQueryset st q = .ok l := by
  simp only [uniQueryset]
  obtain ⟨l1, h1⟩ := fkFilterGuarded_ok (fun u => u.location) q.location
    (instCatFilter st.instCats q.institution_category st.unis)
  rw [h1, ok_bind]
  obtain ⟨l2, h2⟩ := m2mFilterGuarded_ok (fun u => u.education_types) q.education_type l1
  rw [h2, ok_bind]
  obtain ⟨l3, h3⟩ := m2mFilterGuarded_ok (fun u => u.education_languages) q.education_language l2
  rw [h3, ok_bind]
  obtain ⟨l4, h4⟩ := m2mFilterGuarded_ok (fun u => u.degrees) q.degree l3
  rw [h4, ok_bind]
  obtain ⟨l5, h5⟩ := priceMinFilter_ok q.min_price l4
  rw [h5, ok_bind]
  obtain ⟨l6, h6⟩ := priceMaxFilter_ok q.max_price l5
  rw [h6, ok_bind]
  exact ⟨_, rfl⟩

theorem dirApiQueryset_ok (st : St) (q : DQuery) : ∃ l, dirApiQueryset st q = .ok l := by
  unfold dirApiQueryset
  obtain ⟨l1, h1⟩ := fkFilterGuarded_ok (fun x => some x.university) q.university st.dirs
  rw [h1, ok_bind]
  obtain ⟨l2, h2⟩ := fkFilterGuarded_ok (fun x => x.category) q.category l1
  rw [h2, ok_bind]
  obtain ⟨l3, h3⟩ := m2mFilterGuarded_ok (fun x => x.education_types) q.education_type l2
  rw [h3, ok_bind]
  obtain ⟨l4, h4⟩ := m2mFilterGuarded_ok (fun x => x.education_languages) q.education_language l3
  rw [h4, ok_bind]
  obtain ⟨l5, h5⟩ := m2mFilterGuarded_ok (fun x => x.degrees) q.degree l4
  rw [h5, ok_bind]
  exact ⟨_, rfl⟩

theorem fkFilterRaw_ok_of_parseable {α : Type} (get : α → Option Nat) (vals : List String)
    (rows : List α) (h : ∀ v ∈ vals, pyInt v ≠ none) :
    ∃ l, fkFilterRaw get vals rows = .ok l := by
  unfold fkFilterRaw
  by_cases he : vals.isEmpty = true
  · exact ⟨rows, by rw [if_pos he]⟩
  · rw [if_neg he]
    obtain ⟨ids, hids⟩ := qInts_ok_of_parseable h
    rw [hids]
    exact ⟨_, rfl⟩

theorem m2mFilterRaw_ok_of_parseable {α : Type} (get : α → List Nat) (vals : List String)
    (rows : List α) (h : ∀ v ∈ vals, pyInt v ≠ none) :
    ∃ l, m2mFilterRaw get vals rows = .ok l := by
  unfold m2mFilterRaw
  by_cases he : vals.isEmpty = true
  · exact ⟨rows, by rw [if_pos he]⟩
  · rw [if_neg he]
    obtain ⟨ids, hids⟩ := qInts_ok_of_parseable h
    rw [hids]
    exact ⟨_, rfl⟩

theorem dirListQueryset_ok_of_parseable (st : St) (q : DQuery)
    (h : ∀ v ∈ q.university ++ q.category ++ q.education_type ++ q.education_language ++ q.degree,
      pyInt v ≠ none) :
    ∃ l, dirListQueryset st q = .ok l := by
  unfold dirListQueryset
  obtain ⟨l1, h1⟩ := fkFilterRaw_ok_of_parseable (fun x => some x.university) q.university st.dirs
    (fun v hv => h v (by simp [hv]))
  rw [h1, ok_bind]
  obtain ⟨l2, h2⟩ := fkFilterRaw_ok_of_parseable (fun x => x.category) q.category l1
    (fun v hv => h v (by simp [hv]))
  rw [h2, ok_bind]
  obtain ⟨l3, h3⟩ := m2mFilterRaw_ok_of_parseable (fun x => x.education_types) q.education_type l2
    (fun v hv => h v (by simp [hv]))
  rw [h3, ok_bind]
  obtain ⟨l4, h4⟩ := m2mFilterRaw_ok_of_parseable (fun x => x.education_languages)
    q.education_language l3 (fun v hv => h v (by simp [hv]))
  rw [h4, ok_bind]
  obtain ⟨l5, h5⟩ := m2mFilterRaw_ok_of_parseable (fun x => x.degrees) q.degree l4
    (fun v hv => h v (by simp [hv]))
  rw [h5, ok_bind]
  exact ⟨_, rfl⟩

/-! ## Queryset membership helpers -/

theorem mem_sortUnis_dedup (st : St) (sort? : Option String) (rows : List UniRow)
    (u : UniRow) : u ∈ (sortUnis st sort? rows).dedup ↔ u ∈ rows := by
  rw [List.mem_dedup]
  simp only [sortUnis]
  split_ifs <;> exact (List.perm_insertionSort _ _).mem_iff

theorem fkFilterGuarded_single_digit {α : Type} (get : α → Option Nat) {v : String}
    (rows : List α) (hd : pyIsDigit v = true) :
    fkFilterGuarded get [v] rows
      = .ok (rows.filter (fun u => optIdMatch (get u) [((digitsVal v.data : Nat) : Int)])) := by
  unfold fkFilterGuarded
  rw [if_neg (by simp)]
  rw [show List.filter pyIsDigit [v] = [v] from by simp [hd]]
  rw [show qInts [v] = .ok [((digitsVal v.data : Nat) : Int)] from by
    unfold qInts
    rw [pyInt_of_isDigit hd]
    rfl]
  rfl

theorem fkFilterGuarded_single_nondigit {α : Type} (get : α → Option Nat) {v : String}
    (rows : List α) (hd : pyIsDigit v = false) :
    fkFilterGuarded get [v] rows = .ok rows := by
  unfold fkFilterGuarded
  rw [if_neg (by simp)]
  rw [show List.filter pyIsDigit [v] = [] from by simp [hd]]
  rfl

theorem optIdMatch_single {x : Option Nat} {d : Nat} :
    optIdMatch x [((d : Nat) : Int)] = true ↔ x = some d := by
  cases x with
  | none => simp [optIdMatch]
  | some y =>
    simp only [optIdMatch, idMatch, List.any_cons, List.any_nil, Bool.or_false, beq_iff_eq,
      Int.natCast_inj, Option.some.injEq]
    exact eq_comm

theorem instCatName_match {instCats : List Taxon} {oc : Option Nat} {v : String} :
    (match oc with
     | some cid => (instCats.filter (fun t => t.id == cid)).any (fun t => icontains t.name v)
     | none => false) = true
      ↔ ∃ t ∈ instCats, oc = some t.id ∧ icontains t.name v = true := by
  cases oc with
  | none => simp
  | some cid =>
    simp only [List.any_eq_true, List.mem_filter, beq_iff_eq, Option.some.injEq]
    constructor
    · rintro ⟨t, ⟨htm, htid⟩, hic⟩
      exact ⟨t, htm, htid.symm, hic⟩
    · rintro ⟨t, htm, htid, hic⟩
      exact ⟨t, ⟨htm, htid.symm⟩, hic⟩

theorem uniQueryset_single_location (st : St) (v : String) :
    uniQueryset st { location := [v] }
      = (fkFilterGuarded (fun u => u.location) [v] st.unis).map
          (fun rows => (sortUnis st none rows).dedup) := by
  cases hf : fkFilterGuarded (fun u => u.location) [v] st.unis with
  | error e =>
    simp only [uniQueryset]
    rw [show instCatFilter st.instCats [] st.unis = st.unis from rfl, hf]
    rfl
  | ok rows =>
    simp only [uniQueryset]
    rw [show instCatFilter st.instCats [] st.unis = st.unis from rfl, hf]
    rfl

/-! ## Claim theorems: read path -/

/-- Empty store. -/
def emptySt : St := {}

/-- C3 counterexample: the claim says invalid (non-numeric) filter values
never error on the read path, naming the direction list's university
filter; but `DirectionListView.get_queryset` has no `isdigit()` guard,
so the value `"abc"` reaches `int(...)` and evaluating the queryset
raises (`.error`), even over an empty store. -/
theorem C3_counterexample_direction_list_errors :
    dirListQueryset emptySt { university := ["abc"] } = .error () := rfl

/-- C3 (amended): on the university listing view and on both filter API
endpoints every query-parameter assignment evaluates without error —
invalid id values are treated as absent — but the direction listing
view's unguarded id filters (university, category, education type,
education language, degree) error on any value `int(...)` rejects; its
queryset evaluates exactly when every supplied id value parses. -/
theorem C3_amended_invalid_filter_values (st : St) (q : UQuery) (q' : DQuery) :
    (∃ l, uniQueryset st q = .ok l) ∧ (∃ l, dirApiQueryset st q' = .ok l) ∧
    ((∀ v ∈ q'.university ++ q'.category ++ q'.education_type ++ q'.education_language ++
        q'.degree, pyInt v ≠ none) → ∃ l, dirListQueryset st q' = .ok l) :=
  ⟨uniQueryset_ok st q, dirApiQueryset_ok st q', dirListQueryset_ok_of_parseable st q'⟩

/-- Witness for C3 (amended) at concrete inputs: a garbage location value
on the university listing still evaluates, and the direction listing
evaluates when its university value is numeric. -/
theorem C3_amended_witness :
    (∃ l, uniQueryset emptySt { location := ["abc"] } = .ok l) ∧
    (∃ l, dirListQueryset emptySt { university := ["3"] } = .ok l) := by
  refine ⟨(C3_amended_invalid_filter_values emptySt { location := ["abc"] } {}).1, ?_⟩
  refine (C3_amended_invalid_filter_values emptySt {} { university := ["3"] }).2.2 ?_
  intro v hv
  have : v = "3" := by simpa using hv
  subst this
  rw [show pyInt "3" = some 3 from rfl]
  simp

/-- University used by the location-filter counterexample. -/
def u5 : UniRow := { id := 1, full_name := "U", slug := "u", location := some 1 }

/-- Store for the location-filter counterexample. -/
def st5 : St := { locations := [⟨1, "Tashkent"⟩], unis := [u5] }

/-- C5 counterexample: the claim says a non-numeric location value
matches the referenced location's name by case-insensitive substring,
"for both parameters alike"; but the location filter silently drops
non-digit values, so filtering by location "xyz" — a substring of
nothing — still returns the university whose location is "Tashkent". -/
theorem C5_counterexample_location_ignores_text :
    uniQueryset st5 { location := ["xyz"] } = .ok [u5] ∧
    icontains "Tashkent" "xyz" = false := ⟨rfl, rfl⟩

/-- C5 (amended): on the university listing, a numeric value of either
single taxonomy parameter matches the foreign key exactly; a non-numeric
institution-category value falls back to a case-insensitive substring
match on the referenced category name, while a non-numeric location
value contributes nothing (the filter acts as if the parameter were
absent). -/
theorem C5_amended_single_taxon_filters (st : St) (v : String) (lloc lcat : List UniRow)
    (u : UniRow)
    (hloc : uniQueryset st { location := [v] } = .ok lloc)
    (hcat : uniQueryset st { institution_category := [v] } = .ok lcat) :
    (pyIsDigit v = true →
      ((u ∈ lloc ↔ u ∈ st.unis ∧ u.location = some (digitsVal v.data)) ∧
       (u ∈ lcat ↔ u ∈ st.unis ∧ u.institution_category = some (digitsVal v.data)))) ∧
    (pyIsDigit v = false →
      ((u ∈ lloc ↔ u ∈ st.unis) ∧
       (u ∈ lcat ↔ u ∈ st.unis ∧
          ∃ t ∈ st.instCats, u.institution_category = some t.id ∧ icontains t.name v = true))) := by
  have hcat' : lcat = (sortUnis st none (instCatFilter st.instCats [v] st.unis)).dedup := by
    have : uniQueryset st { institution_category := [v] }
        = .ok ((sortUnis st none (instCatFilter st.instCats [v] st.unis)).dedup) := rfl
    rw [this] at hcat
    exact (Except.ok.injEq _ _).mp hcat |>.symm
  rw [uniQueryset_single_location st v] at hloc
  constructor
  · intro hd
    constructor
    · rw [fkFilterGuarded_single_digit _ _ hd] at hloc
      have hl : lloc = (sortUnis st none (st.unis.filter
          (fun u => optIdMatch u.location [((digitsVal v.data : Nat) : Int)]))).dedup := by
        simpa [Except.map] using hloc.symm
      rw [hl, mem_sortUnis_dedup, List.mem_filter, optIdMatch_single]
    · rw [hcat', mem_sortUnis_dedup]
      unfold instCatFilter
      rw [if_neg (by simp)]
      rw [List.mem_filter]
      simp only [List.any_cons, List.any_nil, Bool.or_false]
      rw [if_pos hd, pyInt_of_isDigit hd]
      simp only [Option.getD_some]
      rw [optIdMatch_single]
  · intro hd
    constructor
    · rw [fkFilterGuarded_single_nondigit _ _ hd] at hloc
      have hl : lloc = (sortUnis st none st.unis).dedup := by
        simpa [Except.map] using hloc.symm
      rw [hl, mem_sortUnis_dedup]
    · rw [hcat', mem_sortUnis_dedup]
      unfold instCatFilter
      rw [if_neg (by simp)]
      rw [List.mem_filter]
      simp only [List.any_cons, List.any_nil, Bool.or_false]
      rw [if_neg (by simp [hd])]
      rw [instCatName_match]

/-- Witness for C5 (amended): in `st5`, location "1" keeps `u5`, location
"xyz" keeps it too (ignored), institution category by substring finds
nothing (no category set on `u5`). -/
theorem C5_amended_witness :
    (u5 ∈ [u5] ↔ u5 ∈ st5.unis ∧ u5.location = some 1) ∧
    (u5 ∈ [u5] ↔ u5 ∈ st5.unis) := by
  constructor
  · have := (C5_amended_single_taxon_filters st5 "1" [u5] [] u5 rfl rfl).1 rfl
    exact this.1
  · have := (C5_amended_single_taxon_filters st5 "xyz" [u5] [] u5 rfl rfl).2 rfl
    exact this.1

/-- University linked to three education types, for the dedup claims. -/
def u6 : UniRow := { id := 1, full_name := "U", slug := "u", education_types := [1, 2, 3] }

/-- Store for the many-to-many dedup claim. -/
def st6 : St := { eduTypes := [⟨1, "a"⟩, ⟨2, "b"⟩, ⟨3, "c"⟩], unis := [u6] }

/-- C6: whenever a query includes a many-to-many parameter, the
university listing result is duplicate-free — every member appears
exactly once, however many matching links produced join rows before
`.distinct()`. -/
theorem C6_m2m_results_deduplicated (st : St) (q : UQuery) (l : List UniRow) (u : UniRow)
    (hm2m : q.education_type ≠ [] ∨ q.education_language ≠ [] ∨ q.degree ≠ [])
    (h : uniQueryset st q = .ok l) :
    l.Nodup ∧ (u ∈ l → l.count u = 1) := by
  simp only [uniQueryset] at h
  obtain ⟨a1, h1, h⟩ := except_bind_ok h
  obtain ⟨a2, h2, h⟩ := except_bind_ok h
  obtain ⟨a3, h3, h⟩ := except_bind_ok h
  obtain ⟨a4, h4, h⟩ := except_bind_ok h
  obtain ⟨a5, h5, h⟩ := except_bind_ok h
  obtain ⟨a6, h6, h⟩ := except_bind_ok h
  have hl : l = (sortUnis st q.sort (uniSearchFilter st q.search
      (admissionFilterU q.admission_status a6))).dedup := by
    have : Except.ok ((sortUnis st q.sort (uniSearchFilter st q.search
        (admissionFilterU q.admission_status a6))).dedup) = (.ok l : Except Unit _) := h
    exact ((Except.ok.injEq _ _).mp this).symm
  subst hl
  refine ⟨List.nodup_dedup _, fun hu => ?_⟩
  rw [List.count_dedup, if_pos (List.mem_dedup.mp hu)]

/-- Witness for C6: `u6` is linked to education types 1, 2 and 3; the
query `education_type=1&education_type=2` produces two join rows but
lists `u6` exactly once. -/
theorem C6_witness : List.count u6 [u6] = 1 ∧ [u6].Nodup := by
  have h := C6_m2m_results_deduplicated st6 { education_type := ["1", "2"] } [u6] u6
    (Or.inl (by simp)) rfl
  exact ⟨h.2 (by simp), h.1⟩

/-! ## Claim theorems: helpers and models -/

/-- C9: attaching a remote media file never changes a field that is
already set — a non-empty file field is returned unchanged — and when
the download fails (`fetch` returns `none`) the field keeps its previous
(unset) value; the function is total, so the run continues. -/
theorem C9_attach_only_when_unset (fetch : String → Option String) (cur raw : String) :
    (cur ≠ "" → _attach_remote_file fetch cur raw = cur) ∧
    (fetch raw = none → _attach_remote_file fetch cur raw = cur) := by
  constructor
  · intro h
    unfold _attach_remote_file
    by_cases h1 : raw = ""
    · rw [if_pos h1]
    · rw [if_neg h1, if_pos h]
  · intro h
    unfold _attach_remote_file
    by_cases h1 : raw = ""
    · rw [if_pos h1]
    · rw [if_neg h1]
      by_cases h2 : cur ≠ ""
      · rw [if_pos h2]
      · rw [if_neg h2, h]

/-- Witness for C9: a set logo survives a (would-be) re-download, and a
failed download leaves the field unset. -/
theorem C9_attach_witness :
    _attach_remote_file (fun _ => none) "kept.png" "http://x/y.png" = "kept.png" ∧
    _attach_remote_file (fun _ => none) "" "http://x/y.png" = "" :=
  ⟨(C9_attach_only_when_unset (fun _ => none) "kept.png" "http://x/y.png").1 (by decide),
   (C9_attach_only_when_unset (fun _ => none) "" "http://x/y.png").2 rfl⟩

/-- C10: `_bool` maps a JSON scalar to `true` iff it is the boolean
`True` or a string that lowercases to `"true"`; every other input —
including `1`, `"1"`, `"yes"` and `None` — maps to `false`. -/
theorem C10_bool_coercion (v : JsonVal) :
    _bool v = true ↔ v = .jbool true ∨ ∃ s, v = .jstr s ∧ pyLower s = "true" := by
  cases v with
  | jbool b => cases b <;> simp [_bool]
  | jstr s =>
    simp only [_bool]
    constructor
    · intro h
      exact Or.inr ⟨s, rfl, by simpa [pyStr] using h⟩
    · rintro (h | ⟨t, ht, hlow⟩)
      · exact absurd h (by simp)
      · have : s = t := (JsonVal.jstr.injEq _ _).mp ht
        subst this
        simpa [pyStr] using hlow
  | jnum n =>
    simp only [_bool]
    constructor
    · intro h
      exact absurd (by simpa [pyStr] using h) (pyLower_intRepr_ne_true n)
    · rintro (h | ⟨t, ht, hlow⟩)
      · exact absurd h (by simp)
      · exact absurd ht (by simp)
  | jnull =>
    constructor
    · intro h
      exact absurd (by simpa [_bool, pyStr] using h : pyLower "None" = "true") (by decide)
    · rintro (h | ⟨t, ht, hlow⟩)
      · exact absurd h (by simp)
      · exact absurd ht (by simp)

theorem map_id_of_mem {α : Type} {l : List α} {f : α → α} (h : ∀ x ∈ l, f x = x) :
    l.map f = l := by
  induction l with
  | nil => rfl
  | cons x xs ih =>
    rw [List.map_cons, h x (by simp), ih (fun y hy => h y (by simp [hy]))]

/-- C2 counterexample: the claim says a value without a (truthy) id is
"found or created keyed on name alone".  The find half works, but the
create half crashes the run: the taxonomy primary key is a
`PositiveIntegerField` with no default, so `get_or_create(name=...)` —
which stands outside the `try/except` — inserts a NULL id and raises an
uncaught IntegrityError; `{id: 0, name: "X"}` takes the same path since
`if id_value:` treats 0 as absent. -/
theorem C2_counterexample_zero_id :
    _upsert_objects [] [{ id := some 0, name := "X" }] = .error () ∧
    _upsert_objects [] [{ id := none, name := "X" }] = .error () ∧
    _upsert_objects [⟨2, "A"⟩] [{ id := none, name := "A" }] = .ok [⟨2, "A"⟩] :=
  ⟨rfl, rfl, rfl⟩

/-- C2 (amended): in `_upsert_objects`, a *truthy* (nonzero) supplied id
is looked up first — if the row exists, its name is updated in place and
no row is created; if no row has that id and the stripped name is free,
a row is created with exactly that id; a falsy id (absent or 0) falls
back to a lookup keyed on the name alone, which finds the existing row
when there is one and otherwise crashes the run (the create would insert
a NULL into the defaultless primary key).  Importing `{id: 5, name:
"Tashkent"}` then `{id: 5, name: "Toshkent"}` leaves exactly one row,
with id 5 and name "Toshkent". -/
theorem C2_amended_taxonomy_upsert :
    (∀ (rows : List Taxon) (rec : FilterRec) (i : Nat) (obj : Taxon),
      (rows.map (·.id)).Nodup →
      rec.id = some i → i ≠ 0 →
      rows.find? (fun t => t.id == i) = some obj →
      (∀ t ∈ rows, t.name = pyStrip rec.name → t.id = obj.id) →
      upsertFilterRec rows rec
        = .ok (rows.map (fun t => if t.id == obj.id then { t with name := pyStrip rec.name } else t))) ∧
    (∀ (rows : List Taxon) (rec : FilterRec) (i : Nat),
      rec.id = some i → i ≠ 0 →
      rows.find? (fun t => t.id == i) = none →
      (∀ t ∈ rows, t.name ≠ pyStrip rec.name) →
      upsertFilterRec rows rec = .ok (rows ++ [⟨i, pyStrip rec.name⟩])) ∧
    (∀ (rows : List Taxon) (rec : FilterRec) (obj : Taxon),
      rec.id.getD 0 = 0 →
      rows.find? (fun t => t.name == pyStrip rec.name) = some obj →
      upsertFilterRec rows rec = .ok rows) ∧
    (∀ (rows : List Taxon) (rec : FilterRec),
      rec.id.getD 0 = 0 →
      rows.find? (fun t => t.name == pyStrip rec.name) = none →
      upsertFilterRec rows rec = .error ()) ∧
    _upsert_objects [] [⟨some 5, "Tashkent"⟩, ⟨some 5, "Toshkent"⟩] = .ok [⟨5, "Toshkent"⟩] := by
  refine ⟨?_, ?_, ?_, ?_, rfl⟩
  · intro rows rec i obj hnd hid hi hfind hname
    have hgd : rec.id.getD 0 = i := by rw [hid]; rfl
    have hstep : upsertFilterRec rows rec
        = (if obj.name ≠ pyStrip rec.name then
            (if rows.any (fun t => t.id != obj.id && t.name == pyStrip rec.name) then .error ()
             else .ok (rows.map (fun t => if t.id == obj.id then { t with name := pyStrip rec.name }
               else t)))
           else .ok rows) := by
      simp only [upsertFilterRec]
      rw [if_pos (by rw [hgd]; exact hi), hgd, hfind]
    rw [hstep]
    by_cases hdiff : obj.name ≠ pyStrip rec.name
    · rw [if_pos hdiff]
      have hany : rows.any (fun t => t.id != obj.id && t.name == pyStrip rec.name) = false := by
        rw [List.any_eq_false]
        intro t htm
        simp only [Bool.and_eq_true, bne_iff_ne, beq_iff_eq, not_and]
        intro htid htn
        exact htid (hname t htm htn)
      rw [if_neg (by rw [hany]; simp)]
    · rw [if_neg hdiff]
      have hobj : obj.name = pyStrip rec.name := by simpa using hdiff
      have hmap : rows.map (fun t => if t.id == obj.id then { t with name := pyStrip rec.name }
          else t) = rows := by
        apply map_id_of_mem
        intro t htm
        by_cases heq : t.id == obj.id
        · have hobjmem := List.mem_of_find?_eq_some hfind
          have hteq : t = obj := by
            by_contra hne
            exact pairwise_ne_of_nodup_map hnd htm hobjmem hne (by simpa using heq)
          rw [if_pos heq]
          subst hteq
          rw [← hobj]
        · rw [if_neg heq]
      rw [hmap]
  · intro rows rec i hid hi hfind hfresh
    have hgd : rec.id.getD 0 = i := by rw [hid]; rfl
    simp only [upsertFilterRec]
    rw [if_pos (by rw [hgd]; exact hi), hgd, hfind]
    have hany : rows.any (fun t => t.name == pyStrip rec.name) = false := by
      rw [List.any_eq_false]
      intro t htm
      simpa using hfresh t htm
    rw [if_neg (by rw [hany]; simp)]
  · intro rows rec obj h0 hfind
    simp only [upsertFilterRec]
    rw [if_neg (by rw [h0]; simp), hfind]
  · intro rows rec h0 hfind
    simp only [upsertFilterRec]
    rw [if_neg (by rw [h0]; simp), hfind]

/-- Witness for C2 (amended) at concrete inputs: id-preserving rename,
id-preserving create, the by-name find, and the crashing by-name
create. -/
theorem C2_amended_witness :
    upsertFilterRec [⟨5, "Tashkent"⟩] ⟨some 5, "Toshkent"⟩ = .ok [⟨5, "Toshkent"⟩] ∧
    upsertFilterRec [] ⟨some 7, "New"⟩ = .ok [⟨7, "New"⟩] ∧
    upsertFilterRec [⟨2, "A"⟩] ⟨none, "A"⟩ = .ok [⟨2, "A"⟩] ∧
    upsertFilterRec [⟨2, "A"⟩] ⟨none, "B"⟩ = .error () := by
  refine ⟨?_, ?_, ?_, ?_⟩
  · exact (C2_amended_taxonomy_upsert.1 [⟨5, "Tashkent"⟩] ⟨some 5, "Toshkent"⟩ 5 ⟨5, "Tashkent"⟩
      (by decide) rfl (by decide) rfl (by decide)).trans rfl
  · exact (C2_amended_taxonomy_upsert.2.1 [] ⟨some 7, "New"⟩ 7 rfl (by decide) rfl
      (by decide)).trans rfl
  · exact C2_amended_taxonomy_upsert.2.2.1 [⟨2, "A"⟩] ⟨none, "A"⟩ ⟨2, "A"⟩ rfl rfl
  · exact C2_amended_taxonomy_upsert.2.2.2.1 [⟨2, "A"⟩] ⟨none, "B"⟩ rfl rfl

/-! ## Claim theorems: direction import (C7) -/

/-- The slugs of the other stored universities (`exclude(pk=self.pk)`). -/
def phase1Others (st : St) (rid : Nat) : List String :=
  (st.unis.filter (fun u => u.id ≠ rid)).map (·.slug)

/-- The row after the first `save()`: the slug-fixing pass on the
columns, carrying the join state of primary key `rid`. -/
def phase1Row (st : St) (rid : Nat) (base : UniRow) : UniRow :=
  { base with
    slug := slugOnSave (phase1Others st rid) (slugify base.full_name) base.slug
    education_types := joinETs st rid
    education_languages := joinELs st rid
    degrees := joinDGs st rid }

/-- The store after the `update_or_create` write. -/
def phase1St (st : St) (rid : Nat) (base : UniRow) : St :=
  saveRow st (phase1Row st rid base)

/-- The store after the one-time gallery population. -/
def phase2St (fetch : String → Option String) (st : St) (r : UniRecord) (rid : Nat)
    (base : UniRow) : St :=
  if (phase1St st rid base).galleries.any (fun g => g.university == rid)
  then phase1St st rid base
  else { phase1St st rid base with
         galleries := addGalleryItems fetch rid r.gallery (phase1St st rid base).galleries }

/-- The in-memory row after media attachment and many-to-many sync. -/
def phase3Row (fetch : String → Option String) (st : St) (r : UniRecord) (rid : Nat)
    (base : UniRow) : UniRow :=
  { phase1Row st rid base with
    education_types :=
      match r.education_type with
      | some items => m2mSet (_resolve_many st.eduTypes uniRelKeys items)
      | none => (phase1Row st rid base).education_types
    education_languages :=
      match r.education_language with
      | some items => m2mSet (_resolve_many st.eduLangs uniRelKeys items)
      | none => (phase1Row st rid base).education_languages
    degrees :=
      match r.degree with
      | some items => m2mSet (_resolve_many st.degrees uniRelKeys items)
      | none => (phase1Row st rid base).degrees
    logo := _attach_remote_file fetch (phase1Row st rid base).logo r.logo
    license_file := _attach_remote_file fetch (phase1Row st rid base).license_file (licOf r) }

/-- The slug assigned by the final `uni.save()`. -/
def phaseFSlug (fetch : String → Option String) (st : St) (r : UniRecord) (rid : Nat)
    (base : UniRow) : String :=
  slugOnSave (phase1Others (phase2St fetch st r rid base) rid)
    (slugify (phase3Row fetch st r rid base).full_name)
    (phase3Row fetch st r rid base).slug

/-- The finally persisted row. -/
def phaseFRow (fetch : String → Option String) (st : St) (r : UniRecord) (rid : Nat)
    (base : UniRow) : UniRow :=
  { phase3Row fetch st r rid base with slug := phaseFSlug fetch st r rid base }

/-- The store after the whole record body. -/
def finalSt (fetch : String → Option String) (st : St) (r : UniRecord) (rid : Nat)
    (base : UniRow) : St :=
  saveRow (phase2St fetch st r rid base) (phaseFRow fetch st r rid base)

theorem runUniPhases_eq (fetch : String → Option String) (st : St) (r : UniRecord)
    (rid : Nat) (base : UniRow) (created : Bool) :
    runUniPhases fetch st r rid base created
      = if slugOnSave (phase1Others st rid) (slugify base.full_name) base.slug
            ∈ phase1Others st rid then .error ()
        else if phaseFSlug fetch st r rid base
            ∈ phase1Others (phase2St fetch st r rid base) rid then .error ()
        else .ok (finalSt fetch st r rid base, created) := rfl

theorem runUniPhases_inv {fetch : String → Option String} {st : St} {r : UniRecord}
    {rid : Nat} {base : UniRow} {created : Bool} {s2 : St} {flag : Bool}
    (h : runUniPhases fetch st r rid base created = .ok (s2, flag)) :
    s2 = finalSt fetch st r rid base ∧ flag = created ∧
    slugOnSave (phase1Others st rid) (slugify base.full_name) base.slug
      ∉ phase1Others st rid ∧
    phaseFSlug fetch st r rid base
      ∉ phase1Others (phase2St fetch st r rid base) rid := by
  rw [runUniPhases_eq] at h
  by_cases h1 : slugOnSave (phase1Others st rid) (slugify base.full_name) base.slug
      ∈ phase1Others st rid
  · rw [if_pos h1] at h
    exact absurd h (by simp)
  · rw [if_neg h1] at h
    by_cases h2 : phaseFSlug fetch st r rid base
        ∈ phase1Others (phase2St fetch st r rid base) rid
    · rw [if_pos h2] at h
      exact absurd h (by simp)
    · rw [if_neg h2] at h
      injection h with h3
      exact ⟨(congrArg Prod.fst h3).symm, (congrArg Prod.snd h3).symm, h1, h2⟩

theorem processUni_inv {fetch : String → Option String} {st : St} {r : UniRecord}
    {s2 : St} {flag : Bool} (h : processUni fetch st r = .ok (s2, flag)) :
    uniName r ≠ "" ∧ ∃ rid, r.id = some rid ∧
      ((st.unis.filter (fun u => u.full_name == uniName r) = [] ∧
        st.unis.any (fun u => u.id == rid) = false ∧
        runUniPhases fetch st r rid (applyDefaults {} st r rid) true = .ok (s2, flag)) ∨
       (∃ old, st.unis.filter (fun u => u.full_name == uniName r) = [old] ∧
        runUniPhases fetch st r rid (applyDefaults old st r rid) false = .ok (s2, flag))) := by
  unfold processUni at h
  by_cases hname : uniName r = ""
  · rw [if_pos hname] at h
    exact absurd h (by simp)
  · rw [if_neg hname] at h
    refine ⟨hname, ?_⟩
    cases hrid : r.id with
    | none =>
      rw [hrid] at h
      have h' : (Except.error () : Except Unit (St × Bool)) = .ok (s2, flag) := h
      exact absurd h' (by simp)
    | some rid =>
      rw [hrid] at h
      refine ⟨rid, rfl, ?_⟩
      cases hfil : st.unis.filter (fun u => u.full_name == uniName r) with
      | nil =>
        rw [hfil] at h
        have h' : (if st.unis.any (fun u => u.id == rid)
            then (Except.error () : Except Unit (St × Bool))
            else runUniPhases fetch st r rid (applyDefaults {} st r rid) true)
            = .ok (s2, flag) := h
        by_cases hany : st.unis.any (fun u => u.id == rid) = true
        · rw [if_pos hany] at h'
          exact absurd h' (by simp)
        · rw [if_neg hany] at h'
          exact Or.inl ⟨rfl, by simpa using hany, h'⟩
      | cons old tail =>
        cases tail with
        | nil =>
          rw [hfil] at h
          have h' : runUniPhases fetch st r rid (applyDefaults old st r rid) false
              = .ok (s2, flag) := h
          exact Or.inr ⟨old, rfl, h'⟩
        | cons o2 t2 =>
          rw [hfil] at h
          have h' : (Except.error () : Except Unit (St × Bool)) = .ok (s2, flag) := h
          exact absurd h' (by simp)

/-- All tables other than the university table and the gallery table are
untouched by the university import. -/
def frameEq (s t : St) : Prop :=
  t.instCats = s.instCats ∧ t.locations = s.locations ∧ t.categories = s.categories ∧
  t.eduTypes = s.eduTypes ∧ t.eduLangs = s.eduLangs ∧ t.degrees = s.degrees ∧
  t.dirs = s.dirs ∧ t.fees = s.fees

theorem frameEq_trans {a b c : St} (h1 : frameEq a b) (h2 : frameEq b c) : frameEq a c :=
  ⟨h2.1.trans h1.1, h2.2.1.trans h1.2.1, h2.2.2.1.trans h1.2.2.1,
   h2.2.2.2.1.trans h1.2.2.2.1, h2.2.2.2.2.1.trans h1.2.2.2.2.1,
   h2.2.2.2.2.2.1.trans h1.2.2.2.2.2.1, h2.2.2.2.2.2.2.1.trans h1.2.2.2.2.2.2.1,
   h2.2.2.2.2.2.2.2.trans h1.2.2.2.2.2.2.2⟩

theorem saveRow_frameEq (st : St) (row : UniRow) : frameEq st (saveRow st row) := by
  unfold saveRow
  split <;> exact ⟨rfl, rfl, rfl, rfl, rfl, rfl, rfl, rfl⟩

theorem saveRow_galleries (st : St) (row : UniRow) :
    (saveRow st row).galleries = st.galleries := by
  unfold saveRow
  split <;> rfl

theorem saveRow_mem (st : St) (row : UniRow) {y : UniRow}
    (h : y ∈ (saveRow st row).unis) : y ∈ st.unis ∨ y = row := by
  unfold saveRow at h
  split at h
  · exact mem_map_replace h
  · rcases List.mem_append.mp h with h2 | h2
    · exact Or.inl h2
    · rw [List.mem_singleton] at h2
      exact Or.inr h2

theorem phase2St_frameEq (fetch : String → Option String) (st : St) (r : UniRecord)
    (rid : Nat) (base : UniRow) :
    frameEq st (phase2St fetch st r rid base) := by
  unfold phase2St
  split
  · exact saveRow_frameEq st (phase1Row st rid base)
  · exact saveRow_frameEq st (phase1Row st rid base)

theorem finalSt_frameEq (fetch : String → Option String) (st : St) (r : UniRecord)
    (rid : Nat) (base : UniRow) :
    frameEq st (finalSt fetch st r rid base) :=
  frameEq_trans (phase2St_frameEq fetch st r rid base)
    (saveRow_frameEq (phase2St fetch st r rid base) (phaseFRow fetch st r rid base))

theorem phase1St_galleries (st : St) (rid : Nat) (base : UniRow) :
    (phase1St st rid base).galleries = st.galleries :=
  saveRow_galleries st (phase1Row st rid base)

theorem phase2St_unis (fetch : String → Option String) (st : St) (r : UniRecord)
    (rid : Nat) (base : UniRow) :
    (phase2St fetch st r rid base).unis = (phase1St st rid base).unis := by
  unfold phase2St
  split <;> rfl

theorem finalSt_galleries_super (fetch : String → Option String) (st : St) (r : UniRecord)
    (rid : Nat) (base : UniRow) {g : GalleryRow} (hg : g ∈ st.galleries) :
    g ∈ (finalSt fetch st r rid base).galleries := by
  show g ∈ (saveRow (phase2St fetch st r rid base) (phaseFRow fetch st r rid base)).galleries
  rw [saveRow_galleries]
  unfold phase2St
  split
  · rw [phase1St_galleries]
    exact hg
  · show g ∈ addGalleryItems fetch rid r.gallery (phase1St st rid base).galleries
    rw [phase1St_galleries]
    exact addGalleryItems_mono fetch rid r.gallery st.galleries hg

/-- Reduce the many-to-many arm of the record body when the computed id
set already equals the stored one. -/
theorem m2m_match_fix {tbl : List Taxon} {o : Option (List RelItem)} {cur : List Nat} :
    (∀ items, o = some items → m2mSet (_resolve_many tbl uniRelKeys items) = cur) →
    (match o with
     | some items => m2mSet (_resolve_many tbl uniRelKeys items)
     | none => cur) = cur := by
  intro h
  cases o with
  | none => rfl
  | some items => exact h items rfl

/-- With unique primary keys, the by-key lookup of a stored row's key
finds exactly that row. -/
theorem find_id_of_wf {unis : List UniRow} (hnd : (unis.map (·.id)).Nodup)
    {old : UniRow} (hmem : old ∈ unis) :
    unis.find? (fun u => u.id == old.id) = some old := by
  induction unis with
  | nil => simp at hmem
  | cons x xs ih =>
    have hnd' := List.nodup_cons.mp (show (x.id :: xs.map (fun u => u.id)).Nodup from hnd)
    rcases List.mem_cons.mp hmem with h | h
    · subst h
      rw [List.find?_cons_of_pos _ (by simp)]
    · have hx : (x.id == old.id) = false := by
        rw [beq_eq_false_iff_ne]
        intro hcontra
        exact hnd'.1 (by rw [hcontra]; exact List.mem_map.mpr ⟨old, h, rfl⟩)
      rw [List.find?_cons_of_neg _ (by simp [hx])]
      exact ih hnd'.2 h

/-- With unique primary keys, the by-key filter of a stored row's key is
that row alone. -/
theorem filter_id_singleton {unis : List UniRow} (hnd : (unis.map (·.id)).Nodup)
    {old : UniRow} (hmem : old ∈ unis) :
    unis.filter (fun u => u.id == old.id) = [old] := by
  induction unis with
  | nil => simp at hmem
  | cons x xs ih =>
    have hnd' := List.nodup_cons.mp (show (x.id :: xs.map (fun u => u.id)).Nodup from hnd)
    rcases List.mem_cons.mp hmem with h | h
    · subst h
      rw [List.filter_cons_of_pos (by simp)]
      have hnil : xs.filter (fun u => u.id == old.id) = [] := by
        rw [List.filter_eq_nil_iff]
        intro y hy
        intro hcontra
        refine hnd'.1 ?_
        rw [← eq_of_beq (show (y.id == old.id) = true by simpa using hcontra)]
        exact List.mem_map.mpr ⟨y, hy, rfl⟩
      rw [hnil]
    · have hx : (x.id == old.id) = false := by
        rw [beq_eq_false_iff_ne]
        intro hcontra
        exact hnd'.1 (by rw [hcontra]; exact List.mem_map.mpr ⟨old, h, rfl⟩)
      rw [List.filter_cons_of_neg (by simp [hx])]
      exact ih hnd'.2 h

/-- Saving a row of the store back unchanged is a no-op. -/
theorem saveRow_self {st : St} (hnd : (st.unis.map (·.id)).Nodup) {old : UniRow}
    (hmem : old ∈ st.unis) : saveRow st old = st := by
  unfold saveRow
  rw [if_pos (List.any_eq_true.mpr ⟨old, hmem, by simp⟩)]
  rw [map_replace_self (filter_id_singleton hnd hmem)]

/-- Replacing by one key and filtering by another predicate that also
singles out the same row. -/
theorem filter_map_replace_cross {α : Type} {l : List α} {q p : α → Bool} {a b : α}
    (hq : l.filter q = [a]) (hp : l.filter p = [a]) (hpb : p b = true) :
    (l.map (fun x => if q x then b else x)).filter p = [b] := by
  induction l with
  | nil => simp at hq
  | cons x xs ih =>
    by_cases hqx : q x = true
    · rw [List.filter_cons_of_pos hqx] at hq
      have hxa : x = a := (List.cons.injEq _ _ _ _).mp hq |>.1
      have hqnil : xs.filter q = [] := (List.cons.injEq _ _ _ _).mp hq |>.2
      have hpa : p a = true := (filter_eq_singleton_mem hp).2
      have hpx : p x = true := hxa ▸ hpa
      rw [List.filter_cons_of_pos hpx] at hp
      have hpnil : xs.filter p = [] := (List.cons.injEq _ _ _ _).mp hp |>.2
      simp only [List.map_cons]
      rw [if_pos hqx, map_replace_of_filter_nil (forall_false_of_filter_nil hqnil),
        List.filter_cons_of_pos hpb, hpnil]
    · have hpx : p x = false := by
        by_contra hc
        have hpx2 : p x = true := by simpa using hc
        have hxmem : x ∈ (x :: xs).filter p := List.mem_filter.mpr ⟨by simp, hpx2⟩
        rw [hp, List.mem_singleton] at hxmem
        have hqa : q a = true := (filter_eq_singleton_mem hq).2
        rw [← hxmem] at hqa
        exact hqx hqa
      rw [List.filter_cons_of_neg (by simp [hqx])] at hq
      rw [List.filter_cons_of_neg (by simp [hpx])] at hp
      simp only [List.map_cons]
      rw [if_neg (by simp [hqx]), List.filter_cons_of_neg (by simp [hpx])]
      exact ih hq hp

/-- `filter_map_replace_other`, needing the side condition only on the
list's members. -/
theorem filter_map_replace_other_mem {α : Type} {l : List α} {p q : α → Bool} {b : α}
    (hpq : ∀ x ∈ l, p x = true → q x = false) (hb : q b = false) :
    (l.map (fun x => if p x then b else x)).filter q = l.filter q := by
  induction l with
  | nil => rfl
  | cons x xs ih =>
    simp only [List.map_cons]
    have ih2 := ih (fun y hy => hpq y (by simp [hy]))
    by_cases hx : p x = true
    · rw [if_pos hx, List.filter_cons_of_neg (by simp [hb]),
        List.filter_cons_of_neg (by simp [hpq x (by simp) hx]), ih2]
    · rw [if_neg hx]
      by_cases hq : q x = true
      · rw [List.filter_cons_of_pos hq, List.filter_cons_of_pos hq, ih2]
      · rw [List.filter_cons_of_neg hq, List.filter_cons_of_neg hq, ih2]

/-- A record's id agrees with every stored row sharing its natural-key
name (so another `update_or_create` would not move the row to a new
primary key). -/
def idAgree (st : St) (r : UniRecord) : Prop :=
  ∀ u ∈ st.unis, u.full_name = uniName r → r.id = some u.id

/-- A university record is *stable* in a store: a further import of the
record resolves to exactly one stored row by natural key, and every field
the import would write already holds the value it would compute. -/
def recordStable (fetch : String → Option String) (st : St) (r : UniRecord) : Prop :=
  uniName r ≠ "" ∧ uniSlugOf r ≠ "" ∧
  ∃ old : UniRow,
    st.unis.filter (fun u => u.full_name == uniName r) = [old] ∧
    r.id = some old.id ∧
    applyDefaults old st r old.id = old ∧
    _attach_remote_file fetch old.logo r.logo = old.logo ∧
    _attach_remote_file fetch old.license_file (licOf r) = old.license_file ∧
    (∀ items, r.education_type = some items →
      m2mSet (_resolve_many st.eduTypes uniRelKeys items) = old.education_types) ∧
    (∀ items, r.education_language = some items →
      m2mSet (_resolve_many st.eduLangs uniRelKeys items) = old.education_languages) ∧
    (∀ items, r.degree = some items →
      m2mSet (_resolve_many st.degrees uniRelKeys items) = old.degrees) ∧
    (st.galleries.any (fun g => g.university == old.id) = true ∨
      ∀ i ∈ r.gallery, pyStrip i = "")

/-- Processing a stable record is a no-op reported as an update. -/
theorem processUni_stable_fix (fetch : String → Option String) {st : St} {r : UniRecord}
    (hwf : uniWf st) (hst : recordStable fetch st r) :
    processUni fetch st r = .ok (st, false) := by
  obtain ⟨hname, hslugne, old, hold, hid, happ, hlogo, hlic, hets, hels, hdgs, hgal⟩ := hst
  have hfn : uniName r = old.full_name := congrArg UniRow.full_name happ
  have hsl : uniSlugOf r = old.slug := congrArg UniRow.slug happ
  have hoslug : old.slug ≠ "" := hsl ▸ hslugne
  have hmem : old ∈ st.unis := (filter_eq_singleton_mem hold).1
  have hfresh : old.slug ∉ phase1Others st old.id := slug_fresh_of_wf hwf.2 hmem
  have hs1 : slugOnSave (phase1Others st old.id) (slugify old.full_name) old.slug
      = old.slug := slugOnSave_of_ne _ _ _ hoslug
  have hfind := find_id_of_wf hwf.1 hmem
  have hjE : joinETs st old.id = old.education_types := by
    unfold joinETs
    rw [hfind]
  have hjL : joinELs st old.id = old.education_languages := by
    unfold joinELs
    rw [hfind]
  have hjD : joinDGs st old.id = old.degrees := by
    unfold joinDGs
    rw [hfind]
  have hrow1 : phase1Row st old.id old = old := by
    have hx : phase1Row st old.id old = { old with slug := slugOnSave (phase1Others st old.id) (slugify old.full_name) old.slug, education_types := joinETs st old.id, education_languages := joinELs st old.id, degrees := joinDGs st old.id } := rfl
    rw [hx, hs1, hjE, hjL, hjD]
  have hst1 : phase1St st old.id old = st := by
    show saveRow st (phase1Row st old.id old) = st
    rw [hrow1]
    exact saveRow_self hwf.1 hmem
  have hst2 : phase2St fetch st r old.id old = st := by
    unfold phase2St
    rw [hst1]
    by_cases hany : st.galleries.any (fun g => g.university == old.id) = true
    · rw [if_pos hany]
    · rw [if_neg hany]
      have hblank : ∀ i ∈ r.gallery, pyStrip i = "" := by
        rcases hgal with hg | hg
        · exact absurd hg hany
        · exact hg
      rw [addGalleryItems_all_blank fetch old.id hblank st.galleries]
  have hrow3 : phase3Row fetch st r old.id old = old := by
    unfold phase3Row
    rw [hrow1, m2m_match_fix hets, m2m_match_fix hels, m2m_match_fix hdgs, hlogo, hlic]
  have hfs : phaseFSlug fetch st r old.id old = old.slug := by
    unfold phaseFSlug
    rw [hrow3, hst2, hs1]
  have hrowF : phaseFRow fetch st r old.id old = old := by
    unfold phaseFRow
    rw [hfs, hrow3]
  have hfinal : finalSt fetch st r old.id old = st := by
    unfold finalSt
    rw [hrowF, hst2]
    exact saveRow_self hwf.1 hmem
  unfold processUni
  rw [if_neg hname, hid, hold]
  show runUniPhases fetch st r old.id (applyDefaults old st r old.id) false = .ok (st, false)
  rw [happ, runUniPhases_eq, hs1, if_neg hfresh, hfs, hst2, if_neg hfresh, hfinal]

/-- Reduce the many-to-many arm of the record body on a present key. -/
theorem m2m_match_some {tbl : List Taxon} {o : Option (List RelItem)} {cur : List Nat}
    {items : List RelItem} :
    o = some items →
    (match o with
     | some its => m2mSet (_resolve_many tbl uniRelKeys its)
     | none => cur) = m2mSet (_resolve_many tbl uniRelKeys items) := by
  intro h
  subst h
  rfl

theorem finalSt_filter_name (fetch : String → Option String) (st : St) (r : UniRecord)
    (rid : Nat) (old0 : UniRow)
    (hfilId1 : (phase1St st rid (applyDefaults old0 st r rid)).unis.filter (fun u => u.id == rid) = [phase1Row st rid (applyDefaults old0 st r rid)])
    (hfilName1 : (phase1St st rid (applyDefaults old0 st r rid)).unis.filter (fun u => u.full_name == uniName r) = [phase1Row st rid (applyDefaults old0 st r rid)]) :
    (finalSt fetch st r rid (applyDefaults old0 st r rid)).unis.filter (fun u => u.full_name == uniName r)
      = [phaseFRow fetch st r rid (applyDefaults old0 st r rid)] := by
  have hFid : (phaseFRow fetch st r rid (applyDefaults old0 st r rid)).id = rid := rfl
  have hany : (phase2St fetch st r rid (applyDefaults old0 st r rid)).unis.any (fun u => u.id == (phaseFRow fetch st r rid (applyDefaults old0 st r rid)).id) = true := by
    rw [phase2St_unis]
    refine List.any_eq_true.mpr ⟨phase1Row st rid (applyDefaults old0 st r rid),
      (filter_eq_singleton_mem hfilId1).1, ?_⟩
    exact (filter_eq_singleton_mem hfilId1).2
  have hx : (finalSt fetch st r rid (applyDefaults old0 st r rid)).unis = (phase2St fetch st r rid (applyDefaults old0 st r rid)).unis.map (fun u => if u.id == (phaseFRow fetch st r rid (applyDefaults old0 st r rid)).id then phaseFRow fetch st r rid (applyDefaults old0 st r rid) else u) := by
    show (saveRow (phase2St fetch st r rid (applyDefaults old0 st r rid)) (phaseFRow fetch st r rid (applyDefaults old0 st r rid))).unis = _
    unfold saveRow
    rw [if_pos hany]
  rw [hx, hFid, phase2St_unis]
  exact filter_map_replace_cross hfilId1 hfilName1 (beq_self_eq_true (uniName r))

/-- After a successful record body, the record is stable in the new
store. -/
theorem finalSt_stable (fetch : String → Option String) (st : St) (r : UniRecord)
    (rid : Nat) (old0 : UniRow)
    (hname : uniName r ≠ "") (hslug : uniSlugOf r ≠ "") (hid : r.id = some rid)
    (hfilId1 : (phase1St st rid (applyDefaults old0 st r rid)).unis.filter (fun u => u.id == rid) = [phase1Row st rid (applyDefaults old0 st r rid)])
    (hfilName1 : (phase1St st rid (applyDefaults old0 st r rid)).unis.filter (fun u => u.full_name == uniName r) = [phase1Row st rid (applyDefaults old0 st r rid)]) :
    recordStable fetch (finalSt fetch st r rid (applyDefaults old0 st r rid)) r := by
  refine ⟨hname, hslug, phaseFRow fetch st r rid (applyDefaults old0 st r rid),
    finalSt_filter_name fetch st r rid old0 hfilId1 hfilName1, hid, ?_, ?_, ?_, ?_, ?_, ?_, ?_⟩
  · have hic : instCatOf (finalSt fetch st r rid (applyDefaults old0 st r rid)) r = instCatOf st r := by
      unfold instCatOf
      rw [(finalSt_frameEq fetch st r rid (applyDefaults old0 st r rid)).1]
    have hlo : _get_location (finalSt fetch st r rid (applyDefaults old0 st r rid)).locations r.location_uz = _get_location st.locations r.location_uz := by
      rw [(finalSt_frameEq fetch st r rid (applyDefaults old0 st r rid)).2.1]
    have hFslug : (phaseFRow fetch st r rid (applyDefaults old0 st r rid)).slug = uniSlugOf r := by
      show phaseFSlug fetch st r rid (applyDefaults old0 st r rid) = uniSlugOf r
      unfold phaseFSlug
      have h3s : (phase3Row fetch st r rid (applyDefaults old0 st r rid)).slug = slugOnSave (phase1Others st rid) (slugify (uniName r)) (uniSlugOf r) := rfl
      rw [h3s, slugOnSave_of_ne _ _ _ hslug]
      exact slugOnSave_of_ne _ _ _ hslug
    have hkey : applyDefaults (phaseFRow fetch st r rid (applyDefaults old0 st r rid)) (finalSt fetch st r rid (applyDefaults old0 st r rid)) r (phaseFRow fetch st r rid (applyDefaults old0 st r rid)).id = { phaseFRow fetch st r rid (applyDefaults old0 st r rid) with slug := uniSlugOf r, institution_category := instCatOf (finalSt fetch st r rid (applyDefaults old0 st r rid)) r, location := _get_location (finalSt fetch st r rid (applyDefaults old0 st r rid)).locations r.location_uz } := rfl
    rw [hkey, hic, hlo, ← hFslug]
    rfl
  · exact attach_idem fetch (phase1Row st rid (applyDefaults old0 st r rid)).logo r.logo
  · exact attach_idem fetch (phase1Row st rid (applyDefaults old0 st r rid)).license_file (licOf r)
  · intro items hit
    have h1 : (phaseFRow fetch st r rid (applyDefaults old0 st r rid)).education_types = m2mSet (_resolve_many st.eduTypes uniRelKeys items) := m2m_match_some hit
    rw [(finalSt_frameEq fetch st r rid (applyDefaults old0 st r rid)).2.2.2.1, h1]
  · intro items hit
    have h1 : (phaseFRow fetch st r rid (applyDefaults old0 st r rid)).education_languages = m2mSet (_resolve_many st.eduLangs uniRelKeys items) := m2m_match_some hit
    rw [(finalSt_frameEq fetch st r rid (applyDefaults old0 st r rid)).2.2.2.2.1, h1]
  · intro items hit
    have h1 : (phaseFRow fetch st r rid (applyDefaults old0 st r rid)).degrees = m2mSet (_resolve_many st.degrees uniRelKeys items) := m2m_match_some hit
    rw [(finalSt_frameEq fetch st r rid (applyDefaults old0 st r rid)).2.2.2.2.2.1, h1]
  · by_cases hany : st.galleries.any (fun g => g.university == rid) = true
    · left
      have hg2 : (finalSt fetch st r rid (applyDefaults old0 st r rid)).galleries = st.galleries := by
        show (saveRow (phase2St fetch st r rid (applyDefaults old0 st r rid)) (phaseFRow fetch st r rid (applyDefaults old0 st r rid))).galleries = st.galleries
        rw [saveRow_galleries]
        unfold phase2St
        rw [phase1St_galleries, if_pos hany]
        exact phase1St_galleries st rid (applyDefaults old0 st r rid)
      rw [hg2]
      exact hany
    · by_cases hblank : ∀ i ∈ r.gallery, pyStrip i = ""
      · exact Or.inr hblank
      · left
        have hgall : ∀ g ∈ st.galleries, g.university ≠ rid := by
          intro g hgm
          have hf : st.galleries.any (fun g => g.university == rid) = false := by
            simpa using hany
          have h2 := List.any_eq_false.mp hf g hgm
          simpa using h2
        have hg2 : (finalSt fetch st r rid (applyDefaults old0 st r rid)).galleries = addGalleryItems fetch rid r.gallery st.galleries := by
          show (saveRow (phase2St fetch st r rid (applyDefaults old0 st r rid)) (phaseFRow fetch st r rid (applyDefaults old0 st r rid))).galleries = addGalleryItems fetch rid r.gallery st.galleries
          rw [saveRow_galleries]
          unfold phase2St
          rw [phase1St_galleries, if_neg hany]
        rw [hg2]
        obtain ⟨g, hgm, hgu⟩ := addGalleryItems_populates fetch rid st.galleries hblank hgall
        refine List.any_eq_true.mpr ⟨g, hgm, ?_⟩
        rw [hgu]
        exact beq_self_eq_true rid

/-- A successful `processUni` leaves its record stable, provided the
store was well formed, the record's id agreed with the stored rows of
its name, and the record's derived slug is nonempty. -/
theorem processUni_establish {fetch : String → Option String} {st : St} {r : UniRecord}
    {s2 : St} {flag : Bool} (hwf : uniWf st) (hagr : idAgree st r) (hslug : uniSlugOf r ≠ "")
    (h : processUni fetch st r = .ok (s2, flag)) :
    recordStable fetch s2 r := by
  obtain ⟨hname, rid, hid, hcases⟩ := processUni_inv h
  rcases hcases with ⟨hfil, hany, hrun⟩ | ⟨old, hfil, hrun⟩
  · obtain ⟨hs2, hfl, hc1, hc2⟩ := runUniPhases_inv hrun
    subst hs2
    have hc : st.unis.any (fun u => u.id == (phase1Row st rid (applyDefaults {} st r rid)).id) = false := hany
    have hx1 : (phase1St st rid (applyDefaults {} st r rid)).unis = st.unis ++ [phase1Row st rid (applyDefaults {} st r rid)] := by
      show (saveRow st (phase1Row st rid (applyDefaults {} st r rid))).unis = _
      unfold saveRow
      rw [if_neg (by simp [hc])]
    have hp1 : ((phase1Row st rid (applyDefaults {} st r rid)).full_name == uniName r) = true :=
      beq_self_eq_true (uniName r)
    have hpid1 : ((phase1Row st rid (applyDefaults {} st r rid)).id == rid) = true :=
      beq_self_eq_true rid
    have hfilName1 : (phase1St st rid (applyDefaults {} st r rid)).unis.filter (fun u => u.full_name == uniName r) = [phase1Row st rid (applyDefaults {} st r rid)] := by
      rw [hx1, List.filter_append, hfil, List.filter_cons, if_pos hp1, List.filter_nil,
        List.nil_append]
    have hfilId1 : (phase1St st rid (applyDefaults {} st r rid)).unis.filter (fun u => u.id == rid) = [phase1Row st rid (applyDefaults {} st r rid)] := by
      rw [hx1, List.filter_append, List.filter_cons, if_pos hpid1, List.filter_nil]
      have hnil : st.unis.filter (fun u => u.id == rid) = [] := by
        rw [List.filter_eq_nil_iff]
        intro y hy
        have h2 := List.any_eq_false.mp hany y hy
        simpa using h2
      rw [hnil, List.nil_append]
    exact finalSt_stable fetch st r rid {} hname hslug hid hfilId1 hfilName1
  · obtain ⟨hs2, hfl, hc1, hc2⟩ := runUniPhases_inv hrun
    subst hs2
    have hmemold : old ∈ st.unis := (filter_eq_singleton_mem hfil).1
    have holdname : old.full_name = uniName r := eq_of_beq (filter_eq_singleton_mem hfil).2
    have hidold : r.id = some old.id := hagr old hmemold holdname
    have hridE : rid = old.id := by
      rw [hid] at hidold
      exact Option.some.inj hidold
    subst hridE
    have hfilId : st.unis.filter (fun u => u.id == old.id) = [old] :=
      filter_id_singleton hwf.1 hmemold
    have hanyT : st.unis.any (fun u => u.id == (phase1Row st old.id (applyDefaults old st r old.id)).id) = true :=
      List.any_eq_true.mpr ⟨old, hmemold, beq_self_eq_true old.id⟩
    have hx1 : (phase1St st old.id (applyDefaults old st r old.id)).unis = st.unis.map (fun u => if u.id == (phase1Row st old.id (applyDefaults old st r old.id)).id then phase1Row st old.id (applyDefaults old st r old.id) else u) := by
      show (saveRow st (phase1Row st old.id (applyDefaults old st r old.id))).unis = _
      unfold saveRow
      rw [if_pos hanyT]
    have hr1id : (phase1Row st old.id (applyDefaults old st r old.id)).id = old.id := rfl
    have hfilId1 : (phase1St st old.id (applyDefaults old st r old.id)).unis.filter (fun u => u.id == old.id) = [phase1Row st old.id (applyDefaults old st r old.id)] := by
      rw [hx1, hr1id]
      exact filter_map_replace_single hfilId (beq_self_eq_true old.id)
    have hfilName1 : (phase1St st old.id (applyDefaults old st r old.id)).unis.filter (fun u => u.full_name == uniName r) = [phase1Row st old.id (applyDefaults old st r old.id)] := by
      rw [hx1, hr1id]
      exact filter_map_replace_cross hfilId hfil (beq_self_eq_true (uniName r))
    exact finalSt_stable fetch st r old.id old hname hslug hid hfilId1 hfilName1

/-- Rows whose name differs from the processed record's name and whose
primary key is not the written one are left exactly as they were. -/
theorem finalSt_filter_other (fetch : String → Option String) (st : St) (r : UniRecord)
    (rid : Nat) (old0 : UniRow) (q : UniRow → Bool)
    (hq : ∀ x : UniRow, x.full_name = uniName r → q x = false)
    (hqid : ∀ x ∈ st.unis, x.id = rid → q x = false) :
    (finalSt fetch st r rid (applyDefaults old0 st r rid)).unis.filter q = st.unis.filter q := by
  have hb1 : q (phase1Row st rid (applyDefaults old0 st r rid)) = false := hq _ rfl
  have hbF : q (phaseFRow fetch st r rid (applyDefaults old0 st r rid)) = false := hq _ rfl
  have hsave1 : (phase1St st rid (applyDefaults old0 st r rid)).unis.filter q = st.unis.filter q := by
    show (saveRow st (phase1Row st rid (applyDefaults old0 st r rid))).unis.filter q = _
    unfold saveRow
    split
    · show (st.unis.map (fun u => if u.id == (phase1Row st rid (applyDefaults old0 st r rid)).id then phase1Row st rid (applyDefaults old0 st r rid) else u)).filter q = _
      have hpq1 : ∀ x ∈ st.unis, (x.id == (phase1Row st rid (applyDefaults old0 st r rid)).id) = true → q x = false := by
        intro x hx hpx
        exact hqid x hx (eq_of_beq hpx)
      exact filter_map_replace_other_mem hpq1 hb1
    · show (st.unis ++ [phase1Row st rid (applyDefaults old0 st r rid)]).filter q = _
      rw [List.filter_append, List.filter_cons, if_neg (by simp [hb1]), List.filter_nil,
        List.append_nil]
  have hmem2 : ∀ x ∈ (phase2St fetch st r rid (applyDefaults old0 st r rid)).unis, x.id = rid → q x = false := by
    intro x hx hxid
    rw [phase2St_unis] at hx
    rcases saveRow_mem st (phase1Row st rid (applyDefaults old0 st r rid)) hx with hx2 | hx2
    · exact hqid x hx2 hxid
    · rw [hx2]
      exact hb1
  show (saveRow (phase2St fetch st r rid (applyDefaults old0 st r rid)) (phaseFRow fetch st r rid (applyDefaults old0 st r rid))).unis.filter q = _
  unfold saveRow
  split
  · show ((phase2St fetch st r rid (applyDefaults old0 st r rid)).unis.map (fun u => if u.id == (phaseFRow fetch st r rid (applyDefaults old0 st r rid)).id then phaseFRow fetch st r rid (applyDefaults old0 st r rid) else u)).filter q = _
    have hpq2 : ∀ x ∈ (phase2St fetch st r rid (applyDefaults old0 st r rid)).unis, (x.id == (phaseFRow fetch st r rid (applyDefaults old0 st r rid)).id) = true → q x = false := by
      intro x hx hpx
      exact hmem2 x hx (eq_of_beq hpx)
    rw [filter_map_replace_other_mem hpq2 hbF, phase2St_unis]
    exact hsave1
  · show ((phase2St fetch st r rid (applyDefaults old0 st r rid)).unis ++ [phaseFRow fetch st r rid (applyDefaults old0 st r rid)]).filter q = _
    rw [List.filter_append, List.filter_cons, if_neg (by simp [hbF]), List.filter_nil,
      List.append_nil, phase2St_unis]
    exact hsave1

/-- `update_or_create` defaults depend on the store only through the
institution-category and location lookups. -/
theorem applyDefaults_congr {s t : St} (old : UniRow) (r : UniRecord) (rid : Nat)
    (hic : instCatOf t r = instCatOf s r)
    (hlo : _get_location t.locations r.location_uz = _get_location s.locations r.location_uz) :
    applyDefaults old t r rid = applyDefaults old s r rid := by
  unfold applyDefaults
  rw [hic, hlo]

/-- Rows with a name other than the processed record's keep their places:
the by-name filter of every such predicate is untouched. -/
theorem processUni_filter_other {fetch : String → Option String} {st s2 : St} {r : UniRecord}
    {flag : Bool} (q : UniRow → Bool) (hwf : uniWf st) (hagr : idAgree st r)
    (h : processUni fetch st r = .ok (s2, flag))
    (hq : ∀ x : UniRow, x.full_name = uniName r → q x = false) :
    s2.unis.filter q = st.unis.filter q := by
  obtain ⟨hname, rid, hid, hcases⟩ := processUni_inv h
  rcases hcases with ⟨hfil, hany, hrun⟩ | ⟨old, hfil, hrun⟩
  · obtain ⟨hs2, hfl, hc1, hc2⟩ := runUniPhases_inv hrun
    subst hs2
    refine finalSt_filter_other fetch st r rid {} q hq ?_
    intro x hx hxid
    have h2 := List.any_eq_false.mp hany x hx
    exact absurd (by simp [hxid]) h2
  · obtain ⟨hs2, hfl, hc1, hc2⟩ := runUniPhases_inv hrun
    subst hs2
    have hmemold : old ∈ st.unis := (filter_eq_singleton_mem hfil).1
    have holdname : old.full_name = uniName r := eq_of_beq (filter_eq_singleton_mem hfil).2
    have hidold : r.id = some old.id := hagr old hmemold holdname
    have hridE : rid = old.id := by
      rw [hid] at hidold
      exact Option.some.inj hidold
    subst hridE
    refine finalSt_filter_other fetch st r old.id old q hq ?_
    intro x hx hxid
    have hxold : x = old := by
      by_contra hne2
      exact pairwise_ne_of_nodup_map hwf.1 hx hmemold hne2 hxid
    rw [hxold]
    exact hq old holdname

/-- A record body touches no table but universities and galleries, and
galleries only grow. -/
theorem processUni_frame {fetch : String → Option String} {st s2 : St} {r : UniRecord}
    {flag : Bool} (h : processUni fetch st r = .ok (s2, flag)) :
    frameEq st s2 ∧ ∀ g ∈ st.galleries, g ∈ s2.galleries := by
  obtain ⟨hname, rid, hid, hcases⟩ := processUni_inv h
  rcases hcases with ⟨hfil, hany, hrun⟩ | ⟨old, hfil, hrun⟩
  · obtain ⟨hs2, hfl, hc1, hc2⟩ := runUniPhases_inv hrun
    subst hs2
    exact ⟨finalSt_frameEq fetch st r rid (applyDefaults {} st r rid),
      fun g hg => finalSt_galleries_super fetch st r rid (applyDefaults {} st r rid) hg⟩
  · obtain ⟨hs2, hfl, hc1, hc2⟩ := runUniPhases_inv hrun
    subst hs2
    exact ⟨finalSt_frameEq fetch st r rid (applyDefaults old st r rid),
      fun g hg => finalSt_galleries_super fetch st r rid (applyDefaults old st r rid) hg⟩

/-- One `processUni` step preserves the stability of every record with a
different name. -/
theorem processUni_preserves {fetch : String → Option String} {st s2 : St} {r p : UniRecord}
    {flag : Bool} (hwf : uniWf st) (hagr : idAgree st r)
    (h : processUni fetch st r = .ok (s2, flag))
    (hne : uniName p ≠ uniName r) (hp : recordStable fetch st p) :
    recordStable fetch s2 p := by
  obtain ⟨hframe, hgsup⟩ := processUni_frame h
  obtain ⟨hpnm, hpslug, po, hpfil, hpid, happ, hlogo, hlic, hets, hels, hdgs, hgal⟩ := hp
  have hq : ∀ x : UniRow, x.full_name = uniName r → (x.full_name == uniName p) = false := by
    intro x hx
    rw [hx]
    exact beq_eq_false_iff_ne.mpr (Ne.symm hne)
  refine ⟨hpnm, hpslug, po, ?_, hpid, ?_, hlogo, hlic, ?_, ?_, ?_, ?_⟩
  · rw [processUni_filter_other (fun u => u.full_name == uniName p) hwf hagr h hq]
    exact hpfil
  · have hic : instCatOf s2 p = instCatOf st p := by
      unfold instCatOf
      rw [hframe.1]
    have hlo : _get_location s2.locations p.location_uz = _get_location st.locations p.location_uz := by
      rw [hframe.2.1]
    rw [applyDefaults_congr po p po.id hic hlo]
    exact happ
  · intro items hit
    rw [hframe.2.2.2.1]
    exact hets items hit
  · intro items hit
    rw [hframe.2.2.2.2.1]
    exact hels items hit
  · intro items hit
    rw [hframe.2.2.2.2.2.1]
    exact hdgs items hit
  · rcases hgal with hg | hg
    · left
      obtain ⟨g, hgm, hgp⟩ := List.any_eq_true.mp hg
      exact List.any_eq_true.mpr ⟨g, hgsup g hgm, hgp⟩
    · exact Or.inr hg

/-- One `processUni` step preserves the id agreement of every record with
a different name. -/
theorem processUni_preserves_agree {fetch : String → Option String} {st s2 : St}
    {r p : UniRecord} {flag : Bool} (hwf : uniWf st) (hagr : idAgree st r)
    (h : processUni fetch st r = .ok (s2, flag))
    (hne : uniName p ≠ uniName r) (hagp : idAgree st p) : idAgree s2 p := by
  intro u hu hun
  have hq : ∀ x : UniRow, x.full_name = uniName r → (x.full_name == uniName p) = false := by
    intro x hx
    rw [hx]
    exact beq_eq_false_iff_ne.mpr (Ne.symm hne)
  have hfil := processUni_filter_other (fun x => x.full_name == uniName p) hwf hagr h hq
  have hmemf : u ∈ st.unis.filter (fun x => x.full_name == uniName p) := by
    rw [← hfil]
    exact List.mem_filter.mpr ⟨hu, by simp [hun]⟩
  exact hagp u (List.mem_filter.mp hmemf).1 hun

/-- The final store keeps primary keys and slugs unique provided the
intermediate store does and the final unique-slug check passed. -/
theorem finalSt_wf (fetch : String → Option String) (st : St) (r : UniRecord)
    (rid : Nat) (old0 : UniRow)
    (hfilId1 : (phase1St st rid (applyDefaults old0 st r rid)).unis.filter (fun u => u.id == rid) = [phase1Row st rid (applyDefaults old0 st r rid)])
    (hids1 : ((phase1St st rid (applyDefaults old0 st r rid)).unis.map (·.id)).Nodup)
    (hslugs1 : ((phase1St st rid (applyDefaults old0 st r rid)).unis.map (·.slug)).Nodup)
    (hcheck2 : phaseFSlug fetch st r rid (applyDefaults old0 st r rid)
      ∉ phase1Others (phase2St fetch st r rid (applyDefaults old0 st r rid)) rid) :
    uniWf (finalSt fetch st r rid (applyDefaults old0 st r rid)) := by
  have hFid : (phaseFRow fetch st r rid (applyDefaults old0 st r rid)).id = rid := rfl
  have hany : (phase2St fetch st r rid (applyDefaults old0 st r rid)).unis.any (fun u => u.id == (phaseFRow fetch st r rid (applyDefaults old0 st r rid)).id) = true := by
    rw [phase2St_unis]
    refine List.any_eq_true.mpr ⟨phase1Row st rid (applyDefaults old0 st r rid),
      (filter_eq_singleton_mem hfilId1).1, ?_⟩
    exact (filter_eq_singleton_mem hfilId1).2
  have hx : (finalSt fetch st r rid (applyDefaults old0 st r rid)).unis = (phase2St fetch st r rid (applyDefaults old0 st r rid)).unis.map (fun u => if u.id == (phaseFRow fetch st r rid (applyDefaults old0 st r rid)).id then phaseFRow fetch st r rid (applyDefaults old0 st r rid) else u) := by
    show (saveRow (phase2St fetch st r rid (applyDefaults old0 st r rid)) (phaseFRow fetch st r rid (applyDefaults old0 st r rid))).unis = _
    unfold saveRow
    rw [if_pos hany]
  constructor
  · rw [hx, hFid, phase2St_unis, map_map_replace_eq hfilId1
      (show (phaseFRow fetch st r rid (applyDefaults old0 st r rid)).id = (phase1Row st rid (applyDefaults old0 st r rid)).id from rfl)]
    exact hids1
  · rw [hx, hFid, phase2St_unis]
    refine nodup_map_replace hfilId1 hslugs1 ?_
    intro hmemF
    obtain ⟨x, hxf, hxs⟩ := List.mem_map.mp hmemF
    have hxx := List.mem_filter.mp hxf
    have hxid : x.id ≠ rid := by simpa using hxx.2
    have hxin2 : x ∈ (phase2St fetch st r rid (applyDefaults old0 st r rid)).unis := by
      rw [phase2St_unis]
      exact hxx.1
    have hmem2 : x.slug ∈ phase1Others (phase2St fetch st r rid (applyDefaults old0 st r rid)) rid :=
      List.mem_map.mpr ⟨x, List.mem_filter.mpr ⟨hxin2, by simpa using hxid⟩, rfl⟩
    have hmem3 : (phaseFRow fetch st r rid (applyDefaults old0 st r rid)).slug
        ∈ phase1Others (phase2St fetch st r rid (applyDefaults old0 st r rid)) rid := hxs ▸ hmem2
    exact hcheck2 hmem3

/-- A successful `processUni` keeps the university table well formed. -/
theorem processUni_wf {fetch : String → Option String} {st s2 : St} {r : UniRecord}
    {flag : Bool} (hwf : uniWf st) (hagr : idAgree st r)
    (h : processUni fetch st r = .ok (s2, flag)) :
    uniWf s2 := by
  obtain ⟨hname, rid, hid, hcases⟩ := processUni_inv h
  rcases hcases with ⟨hfil, hany, hrun⟩ | ⟨old, hfil, hrun⟩
  · obtain ⟨hs2, hfl, hc1, hc2⟩ := runUniPhases_inv hrun
    subst hs2
    have hnorid : ∀ x ∈ st.unis, x.id ≠ rid := by
      intro x hx
      have h2 := List.any_eq_false.mp hany x hx
      simpa using h2
    have hfilall : st.unis.filter (fun u => u.id ≠ rid) = st.unis := by
      rw [List.filter_eq_self]
      intro x hx
      simpa using hnorid x hx
    have hPO : phase1Others st rid = st.unis.map (·.slug) := by
      unfold phase1Others
      rw [hfilall]
    have hc1' : (phase1Row st rid (applyDefaults {} st r rid)).slug ∉ st.unis.map (·.slug) := by
      rw [← hPO]
      exact hc1
    have hc : st.unis.any (fun u => u.id == (phase1Row st rid (applyDefaults {} st r rid)).id) = false := hany
    have hx1 : (phase1St st rid (applyDefaults {} st r rid)).unis = st.unis ++ [phase1Row st rid (applyDefaults {} st r rid)] := by
      show (saveRow st (phase1Row st rid (applyDefaults {} st r rid))).unis = _
      unfold saveRow
      rw [if_neg (by simp [hc])]
    have hpid1 : ((phase1Row st rid (applyDefaults {} st r rid)).id == rid) = true :=
      beq_self_eq_true rid
    have hfilId1 : (phase1St st rid (applyDefaults {} st r rid)).unis.filter (fun u => u.id == rid) = [phase1Row st rid (applyDefaults {} st r rid)] := by
      rw [hx1, List.filter_append, List.filter_cons, if_pos hpid1, List.filter_nil]
      have hnil : st.unis.filter (fun u => u.id == rid) = [] := by
        rw [List.filter_eq_nil_iff]
        intro y hy
        have h2 := List.any_eq_false.mp hany y hy
        simpa using h2
      rw [hnil, List.nil_append]
    have hids1 : ((phase1St st rid (applyDefaults {} st r rid)).unis.map (·.id)).Nodup := by
      rw [hx1, List.map_append, List.map_cons, List.map_nil]
      refine nodup_append_singleton hwf.1 ?_
      intro hm
      obtain ⟨x, hxm, hxid⟩ := List.mem_map.mp hm
      exact hnorid x hxm hxid
    have hslugs1 : ((phase1St st rid (applyDefaults {} st r rid)).unis.map (·.slug)).Nodup := by
      rw [hx1, List.map_append, List.map_cons, List.map_nil]
      refine nodup_append_singleton hwf.2 ?_
      exact hc1'
    exact finalSt_wf fetch st r rid (applyDefaults {} st r rid) hfilId1 hids1 hslugs1 hc2
  · obtain ⟨hs2, hfl, hc1, hc2⟩ := runUniPhases_inv hrun
    subst hs2
    have hmemold : old ∈ st.unis := (filter_eq_singleton_mem hfil).1
    have holdname : old.full_name = uniName r := eq_of_beq (filter_eq_singleton_mem hfil).2
    have hidold : r.id = some old.id := hagr old hmemold holdname
    have hridE : rid = old.id := by
      rw [hid] at hidold
      exact Option.some.inj hidold
    subst hridE
    have hfilId : st.unis.filter (fun u => u.id == old.id) = [old] :=
      filter_id_singleton hwf.1 hmemold
    have hanyT : st.unis.any (fun u => u.id == (phase1Row st old.id (applyDefaults old st r old.id)).id) = true :=
      List.any_eq_true.mpr ⟨old, hmemold, beq_self_eq_true old.id⟩
    have hx1 : (phase1St st old.id (applyDefaults old st r old.id)).unis = st.unis.map (fun u => if u.id == (phase1Row st old.id (applyDefaults old st r old.id)).id then phase1Row st old.id (applyDefaults old st r old.id) else u) := by
      show (saveRow st (phase1Row st old.id (applyDefaults old st r old.id))).unis = _
      unfold saveRow
      rw [if_pos hanyT]
    have hr1id : (phase1Row st old.id (applyDefaults old st r old.id)).id = old.id := rfl
    have hfilId1 : (phase1St st old.id (applyDefaults old st r old.id)).unis.filter (fun u => u.id == old.id) = [phase1Row st old.id (applyDefaults old st r old.id)] := by
      rw [hx1, hr1id]
      exact filter_map_replace_single hfilId (beq_self_eq_true old.id)
    have hids1 : ((phase1St st old.id (applyDefaults old st r old.id)).unis.map (·.id)).Nodup := by
      rw [hx1, hr1id, map_map_replace_eq hfilId
        (show (phase1Row st old.id (applyDefaults old st r old.id)).id = old.id from rfl)]
      exact hwf.1
    have hslugs1 : ((phase1St st old.id (applyDefaults old st r old.id)).unis.map (·.slug)).Nodup := by
      rw [hx1, hr1id]
      refine nodup_map_replace hfilId hwf.2 ?_
      intro hm
      obtain ⟨x, hxf, hxs⟩ := List.mem_map.mp hm
      have hxx := List.mem_filter.mp hxf
      have hxid : x.id ≠ old.id := by simpa using hxx.2
      have hmem1 : x.slug ∈ phase1Others st old.id :=
        List.mem_map.mpr ⟨x, List.mem_filter.mpr ⟨hxx.1, by simpa using hxid⟩, rfl⟩
      have hmem2 : (phase1Row st old.id (applyDefaults old st r old.id)).slug
          ∈ phase1Others st old.id := hxs ▸ hmem1
      exact hc1 hmem2
    exact finalSt_wf fetch st r old.id old hfilId1 hids1 hslugs1 hc2

theorem importUnis_cons (fetch : String → Option String) (st : St) (r : UniRecord)
    (rs : List UniRecord) (c u : Nat) :
    importUnis fetch st (r :: rs) c u
      = match processUni fetch st r with
        | .error e => .error e
        | .ok (st2, created) =>
          importUnis fetch st2 rs (c + (if created then 1 else 0))
            (u + (if created then 0 else 1)) := rfl

/-- A record whose name never occurs in the remaining feed stays stable
through the rest of the run (which must itself stay well formed and in
id agreement). -/
theorem importUnis_preserves (fetch : String → Option String) (rs : List UniRecord) :
    ∀ (st : St) (c u : Nat) {s2 : St} {c2 u2 : Nat} {p : UniRecord},
    uniWf st →
    (rs.map uniName).Nodup →
    (∀ x ∈ rs, idAgree st x) →
    (∀ x ∈ rs, uniName p ≠ uniName x) →
    recordStable fetch st p →
    importUnis fetch st rs c u = .ok (s2, c2, u2) →
    recordStable fetch s2 p := by
  induction rs with
  | nil =>
    intro st c u s2 c2 u2 p hwf hnames hagrs hne hp h
    have h2 : (Except.ok (st, c, u) : Except Unit (St × Nat × Nat)) = .ok (s2, c2, u2) := h
    injection h2 with h3
    have h4 : st = s2 := congrArg Prod.fst h3
    rw [← h4]
    exact hp
  | cons r rest ih =>
    intro st c u s2 c2 u2 p hwf hnames hagrs hne hp h
    rw [importUnis_cons] at h
    cases hproc : processUni fetch st r with
    | error e =>
      rw [hproc] at h
      have h2 : (Except.error e : Except Unit (St × Nat × Nat)) = .ok (s2, c2, u2) := h
      exact absurd h2 (by simp)
    | ok pr =>
      obtain ⟨st2, created⟩ := pr
      rw [hproc] at h
      have h2 : importUnis fetch st2 rest (c + (if created then 1 else 0)) (u + (if created then 0 else 1)) = .ok (s2, c2, u2) := h
      have hagr : idAgree st r := hagrs r (by simp)
      have hwf2 : uniWf st2 := processUni_wf hwf hagr hproc
      have hnames2 : (rest.map uniName).Nodup := (List.nodup_cons.mp (by simpa using hnames)).2
      have hnotin : uniName r ∉ rest.map uniName := (List.nodup_cons.mp (by simpa using hnames)).1
      have hagrs2 : ∀ x ∈ rest, idAgree st2 x := by
        intro x hx
        refine processUni_preserves_agree hwf hagr hproc ?_ (hagrs x (by simp [hx]))
        intro hcontra
        exact hnotin (by rw [← hcontra]; exact List.mem_map.mpr ⟨x, hx, rfl⟩)
      have hp2 : recordStable fetch st2 p :=
        processUni_preserves hwf hagr hproc (hne r (by simp)) hp
      exact ih st2 _ _ hwf2 hnames2 hagrs2 (fun x hx => hne x (by simp [hx])) hp2 h2

/-- A successful run leaves the store well formed, with every feed record
stable, provided the store starts well formed and in id agreement with
the feed, feed names are pairwise distinct, and every derived slug is
nonempty. -/
theorem importUnis_stable_of (fetch : String → Option String) (rs : List UniRecord) :
    ∀ (st : St) (c u : Nat) {s2 : St} {c2 u2 : Nat},
    uniWf st →
    (rs.map uniName).Nodup →
    (∀ p ∈ rs, idAgree st p) →
    (∀ p ∈ rs, uniSlugOf p ≠ "") →
    importUnis fetch st rs c u = .ok (s2, c2, u2) →
    uniWf s2 ∧ ∀ p ∈ rs, recordStable fetch s2 p := by
  induction rs with
  | nil =>
    intro st c u s2 c2 u2 hwf hnames hagrs hslugs h
    have h2 : (Except.ok (st, c, u) : Except Unit (St × Nat × Nat)) = .ok (s2, c2, u2) := h
    injection h2 with h3
    have h4 : st = s2 := congrArg Prod.fst h3
    rw [← h4]
    exact ⟨hwf, by simp⟩
  | cons r rest ih =>
    intro st c u s2 c2 u2 hwf hnames hagrs hslugs h
    rw [importUnis_cons] at h
    cases hproc : processUni fetch st r with
    | error e =>
      rw [hproc] at h
      have h2 : (Except.error e : Except Unit (St × Nat × Nat)) = .ok (s2, c2, u2) := h
      exact absurd h2 (by simp)
    | ok pr =>
      obtain ⟨st2, created⟩ := pr
      rw [hproc] at h
      have h2 : importUnis fetch st2 rest (c + (if created then 1 else 0)) (u + (if created then 0 else 1)) = .ok (s2, c2, u2) := h
      have hagr : idAgree st r := hagrs r (by simp)
      have hwf2 : uniWf st2 := processUni_wf hwf hagr hproc
      have hstab2 : recordStable fetch st2 r :=
        processUni_establish hwf hagr (hslugs r (by simp)) hproc
      have hnames2 : (rest.map uniName).Nodup := (List.nodup_cons.mp (by simpa using hnames)).2
      have hnotin : uniName r ∉ rest.map uniName := (List.nodup_cons.mp (by simpa using hnames)).1
      have hagrs2 : ∀ x ∈ rest, idAgree st2 x := by
        intro x hx
        refine processUni_preserves_agree hwf hagr hproc ?_ (hagrs x (by simp [hx]))
        intro hcontra
        exact hnotin (by rw [← hcontra]; exact List.mem_map.mpr ⟨x, hx, rfl⟩)
      obtain ⟨hwfF, hstabF⟩ := ih st2 _ _ hwf2 hnames2 hagrs2
        (fun p hp => hslugs p (by simp [hp])) h2
      refine ⟨hwfF, ?_⟩
      intro p hp
      rcases List.mem_cons.mp hp with hp2 | hp2
      · subst hp2
        refine importUnis_preserves fetch rest st2 _ _ hwf2 hnames2 hagrs2 ?_ hstab2 h2
        intro x hx hcontra
        exact hnotin (by rw [hcontra]; exact List.mem_map.mpr ⟨x, hx, rfl⟩)
      · exact hstabF p hp2

/-- Running the import over a feed of stable records leaves the store
untouched and counts every record as updated. -/
theorem importUnis_stable_run (fetch : String → Option String) (rs : List UniRecord) :
    ∀ (st : St) (c u : Nat),
    uniWf st → (∀ p ∈ rs, recordStable fetch st p) →
    importUnis fetch st rs c u = .ok (st, c, u + rs.length) := by
  induction rs with
  | nil =>
    intro st c u hwf hstab
    rfl
  | cons r rest ih =>
    intro st c u hwf hstab
    rw [importUnis_cons, processUni_stable_fix fetch hwf (hstab r (by simp))]
    show importUnis fetch st rest (c + 0) (u + 1) = .ok (st, c, u + (r :: rest).length)
    rw [Nat.add_zero, ih st c (u + 1) hwf (fun p hp => hstab p (by simp [hp])), List.length_cons]
    have harith : u + 1 + rest.length = u + (rest.length + 1) := by omega
    rw [harith]

/-- A fetch oracle for which every remote download fails. -/
def fetch0 : String → Option String := fun _ => none

/-- A stored university whose name slugifies to the empty string: its
blank slug survived its own save, since `slugify` of the name is already
the stored (empty) slug. -/
def rowE : UniRow := { id := 3, full_name := "!!!", slug := "" }

/-- Store holding only `rowE`. -/
def s0c1 : St := { unis := [rowE] }

/-- A feed record without explicit slug whose name slugifies to the empty
string. -/
def recA : UniRecord := { id := some 7, full_name_uz := "???" }

/-- A feed record giving the stored university 3 the explicit slug `e`. -/
def recE : UniRecord := { id := some 3, full_name_uz := "!!!", slug := "e" }

/-- First import of the two-record feed over `s0c1`. -/
def c1Run1 : Except Unit (St × Nat × Nat) := importUnis fetch0 s0c1 [recA, recE] 0 0

/-- Second import of the same feed over the end state of the first. -/
def c1Run2 : Except Unit (St × Nat × Nat) :=
  match c1Run1 with
  | .ok (s, _, _) => importUnis fetch0 s [recA, recE] 0 0
  | .error e => .error e

/-- Project an import run to the `(id, full_name, slug)` rows and the
created/updated counters. -/
def runView (e : Except Unit (St × Nat × Nat)) :
    Except Unit (List (Nat × String × String) × Nat × Nat) :=
  match e with
  | .ok (s, c, u) => .ok (s.unis.map (fun x => (x.id, x.full_name, x.slug)), c, u)
  | .error e => .error e

/-- C1 counterexample: running the university import twice on the same
feed does not reproduce the end state of the first run.  Over a store
holding a university with a blank slug (reachable, since `slugify` keeps
a blank slug when the name has no slug characters), the first run gives
the record named `???` the collision-suffixed slug `-1` (the blank slug
was taken), and renames the blank-slugged row to `e`; the second run
re-derives the now-free blank slug instead, so the two end states differ
even though the second run reports created = 0 and updated = 2. -/
theorem C1_counterexample_slug_reflow :
    uniWf s0c1 ∧
    runView c1Run1 = .ok ([(3, "!!!", "e"), (7, "???", "-1")], 1, 1) ∧
    runView c1Run2 = .ok ([(3, "!!!", "e"), (7, "???", "")], 0, 2) :=
  ⟨⟨by decide, by decide⟩, rfl, rfl⟩

/-- C1 (amended): if the university table starts well formed (unique ids
and slugs), the feed's natural-key names are pairwise distinct, every
record's id agrees with the stored rows of its name (so no update moves
a row to a new primary key), and every record's derived slug
(`u.get("slug") or slugify(uni_name)`) is nonempty, then a second run of
the university import over the same feed leaves the end state of the
first run unchanged and reports created = 0 with every record counted as
updated. -/
theorem C1_amended_idempotent_import (fetch : String → Option String) (s0 s1 : St)
    (feed : List UniRecord) (c u : Nat)
    (hwf : uniWf s0)
    (hnames : (feed.map uniName).Nodup)
    (hagrs : ∀ r ∈ feed, idAgree s0 r)
    (hslugs : ∀ r ∈ feed, uniSlugOf r ≠ "")
    (h1 : importUnis fetch s0 feed 0 0 = .ok (s1, c, u)) :
    importUnis fetch s1 feed 0 0 = .ok (s1, 0, feed.length) := by
  obtain ⟨hwf1, hstab⟩ := importUnis_stable_of fetch feed s0 0 0 hwf hnames hagrs hslugs h1
  have h2 := importUnis_stable_run fetch feed s1 0 0 hwf1 hstab
  simpa using h2

/-- A plain feed record for the amended C1 witness. -/
def recW : UniRecord := { id := some 1, full_name_uz := "Uni A" }

/-- End state of the first witness run. -/
def c1S1 : St :=
  match importUnis fetch0 emptySt [recW] 0 0 with
  | .ok (s, _, _) => s
  | .error _ => emptySt

/-- Witness for the amended C1 at a concrete input: importing the single
record `Uni A` into the empty store creates one row, and a second run
reproduces the same state with created = 0 and updated = 1. -/
theorem C1_amended_witness :
    importUnis fetch0 c1S1 [recW] 0 0 = .ok (c1S1, 0, 1) :=
  C1_amended_idempotent_import fetch0 emptySt c1S1 [recW] 1 0 ⟨by decide, by decide⟩ (by decide)
    (fun r hr u hu hun => absurd hu (List.not_mem_nil u))
    (fun r hr => by
      rw [List.mem_singleton] at hr
      rw [hr]
      decide) rfl

end UniList
